import Mathlib

/-!
Verification of the MultiAgentic Debugger core: a shallow embedding of the
structured-output extractor, LLM gateway, agent invocations and orchestrator,
with theorems settling the behavioral claims about them.
-/

set_option maxRecDepth 100000
set_option maxHeartbeats 2000000

namespace AgenticDebugger

/-- Model of Python `str.lower()` (ASCII range). -/
def pyLower (s : String) : String :=
  String.mk (s.data.map Char.toLower)

/-- Characters stripped by the Python `str.strip()` method (ASCII whitespace). -/
def isPyWs (c : Char) : Bool :=
  c = ' ' || c = '\t' || c = '\n' || c = '\r' || c = '\x0b' || c = '\x0c'

/-- Model of Python `str.strip()` over ASCII whitespace. -/
def pyStrip (s : String) : String :=
  String.mk (((s.data.dropWhile isPyWs).reverse.dropWhile isPyWs).reverse)

/-- Does `pat` occur as a contiguous sublist of the haystack? -/
def subOccurs (pat : List Char) : List Char → Bool
  | [] => pat.isEmpty
  | c :: t => pat.isPrefixOf (c :: t) || subOccurs pat t

/-- Model of Python substring containment `pat in hay`. -/
def containsSub (hay pat : String) : Bool :=
  subOccurs pat.data hay.data


/-!
## JSON values and a model of `json.loads`

`llm_client.py` validates and parses candidate substrings with Python's
`json.loads`.  We model JSON values with number literals kept as their
lexemes (their numeric value is only ever needed for Python truthiness).
-/

inductive Json where
  | null : Json
  | bool (b : Bool) : Json
  | num (lexeme : String) : Json
  | str (s : String) : Json
  | arr (elems : List Json) : Json
  | obj (members : List (String × Json)) : Json

/-- JSON whitespace accepted between tokens by Python's `json` module. -/
def isJsonWs (c : Char) : Bool :=
  c = ' ' || c = '\t' || c = '\n' || c = '\r'

def skipWs (cs : List Char) : List Char :=
  cs.dropWhile isJsonWs

def hexVal (c : Char) : Option Nat :=
  if '0' ≤ c ∧ c ≤ '9' then some (c.toNat - '0'.toNat)
  else if 'a' ≤ c ∧ c ≤ 'f' then some (c.toNat - 'a'.toNat + 10)
  else if 'A' ≤ c ∧ c ≤ 'F' then some (c.toNat - 'A'.toNat + 10)
  else none

/-- Short escapes accepted after a backslash in a JSON string. -/
def escChar (c : Char) : Option Char :=
  if c = '"' then some '"'
  else if c = '\\' then some '\\'
  else if c = '/' then some '/'
  else if c = 'b' then some '\x08'
  else if c = 'f' then some '\x0c'
  else if c = 'n' then some '\n'
  else if c = 'r' then some '\r'
  else if c = 't' then some '\t'
  else none

/-- Code point to `Char`; lone surrogate halves (which Lean `Char` cannot
represent, unlike Python `str`) are mapped to U+FFFD. -/
def charOfCode (n : Nat) : Char :=
  if (0xd800 ≤ n ∧ n < 0xe000) ∨ 0x110000 ≤ n then '�' else Char.ofNat n

/-- A `\uXXXX` escape (the leading `\u` already consumed), combining a high
surrogate with an immediately following `\uXXXX` low surrogate as Python's
`json` scanner does. -/
def parseUnicodeEscape (cs : List Char) : Option (Char × List Char) :=
  match cs with
  | a :: b :: c :: d :: r =>
    match hexVal a, hexVal b, hexVal c, hexVal d with
    | some ha, some hb, some hc, some hd =>
      let n := ((ha * 16 + hb) * 16 + hc) * 16 + hd
      if 0xd800 ≤ n ∧ n ≤ 0xdbff then
        match r with
        | '\\' :: 'u' :: a2 :: b2 :: c2 :: d2 :: r2 =>
          match hexVal a2, hexVal b2, hexVal c2, hexVal d2 with
          | some ha2, some hb2, some hc2, some hd2 =>
            let m := ((ha2 * 16 + hb2) * 16 + hc2) * 16 + hd2
            if 0xdc00 ≤ m ∧ m ≤ 0xdfff then
              some (charOfCode (0x10000 + (n - 0xd800) * 0x400 + (m - 0xdc00)), r2)
            else some (charOfCode n, r)
          | _, _, _, _ => some (charOfCode n, r)
        | _ => some (charOfCode n, r)
      else some (charOfCode n, r)
    | _, _, _, _ => none
  | _ => none

/-- One escape sequence, positioned just after the backslash. -/
def parseEscape (cs : List Char) : Option (Char × List Char) :=
  match cs with
  | [] => none
  | e :: r => if e = 'u' then parseUnicodeEscape r else (escChar e).map (fun d => (d, r))

/-- Body of a JSON string literal, positioned just after the opening quote.
Returns the decoded characters and the remainder after the closing quote.
Mirrors Python `json`'s strict scanner: raw control characters are rejected. -/
def parseStringChars : Nat → List Char → Option (List Char × List Char)
  | 0, _ => none
  | _ + 1, [] => none
  | fuel + 1, c :: rest =>
    if c = '"' then some ([], rest)
    else if c = '\\' then
      match parseEscape rest with
      | some (d, r2) => (parseStringChars fuel r2).map (fun p => (d :: p.1, p.2))
      | none => none
    else if c.toNat < 32 then none
    else (parseStringChars fuel rest).map (fun p => (c :: p.1, p.2))

/-- The optional fraction group `(\.[0-9]+)?` of a JSON number. -/
def parseNumFrac (lexInt : List Char) (r : List Char) : List Char × List Char :=
  match r with
  | '.' :: r2 =>
    let ds := r2.takeWhile Char.isDigit
    if ds.isEmpty then (lexInt, r) else (lexInt ++ '.' :: ds, r2.dropWhile Char.isDigit)
  | _ => (lexInt, r)

/-- The optional exponent group `([eE][+-]?[0-9]+)?` of a JSON number. -/
def parseNumExp (lexFrac : List Char) (r1 : List Char) : List Char × List Char :=
  match r1 with
  | e :: r2 =>
    if e = 'e' ∨ e = 'E' then
      match r2 with
      | s :: r3 =>
        if s = '+' ∨ s = '-' then
          let ds := r3.takeWhile Char.isDigit
          if ds.isEmpty then (lexFrac, r1)
          else (lexFrac ++ e :: s :: ds, r3.dropWhile Char.isDigit)
        else
          let ds := r2.takeWhile Char.isDigit
          if ds.isEmpty then (lexFrac, r1)
          else (lexFrac ++ e :: ds, r2.dropWhile Char.isDigit)
      | [] => (lexFrac, r1)
    else (lexFrac, r1)
  | [] => (lexFrac, r1)

/-- The groups after the integer part of a JSON number lexeme
`-?(0|[1-9][0-9]*)(\.[0-9]+)?([eE][+-]?[0-9]+)?`, exactly the regex Python's
`json` scanner matches at a value position. -/
def parseNumAfterInt (lexInt : List Char) (r : List Char) : List Char × List Char :=
  match parseNumFrac lexInt r with
  | (lexFrac, r1) => parseNumExp lexFrac r1

/-- The integer part `(0|[1-9][0-9]*)` and what follows, after the sign. -/
def parseNumberBody (sign : List Char) (r1 : List Char) : Option (List Char × List Char) :=
  match r1 with
  | '0' :: r2 => some (parseNumAfterInt (sign ++ ['0']) r2)
  | c :: r2 =>
    if c.isDigit then
      some (parseNumAfterInt (sign ++ c :: r2.takeWhile Char.isDigit)
        (r2.dropWhile Char.isDigit))
    else none
  | [] => none

def parseNumber (cs : List Char) : Option (List Char × List Char) :=
  match cs with
  | '-' :: r => parseNumberBody ['-'] r
  | _ => parseNumberBody [] cs

mutual

/-- One JSON value at the current position (no leading-whitespace skip),
mirroring Python `json.scanner.py_make_scanner`'s `_scan_once`: an object,
array or string by first character; the literals `true`/`false`/`null` and
the constants `NaN`/`Infinity`/`-Infinity` by literal comparison; else the
number regex. -/
def parseValue : Nat → List Char → Option (Json × List Char)
  | 0, _ => none
  | _ + 1, [] => none
  | fuel + 1, c :: rest =>
      if c = '\x7b' then
        match parseObjBody fuel rest with
        | some (kvs, rr) =>
          match rr with
          | '\x7d' :: r2 => some (.obj kvs, r2)
          | _ => none
        | none => none
      else if c = '[' then
        match parseArrBody fuel rest with
        | some (vs, r) => some (.arr vs, r)
        | none => none
      else if c = '"' then
        (parseStringChars (rest.length + 1) rest).map (fun p => (.str (String.mk p.1), p.2))
      else if c = 't' then
        if rest.take 3 = ['r', 'u', 'e'] then some (.bool true, rest.drop 3) else none
      else if c = 'f' then
        if rest.take 4 = ['a', 'l', 's', 'e'] then some (.bool false, rest.drop 4) else none
      else if c = 'n' then
        if rest.take 3 = ['u', 'l', 'l'] then some (.null, rest.drop 3) else none
      else if c = 'N' then
        if rest.take 2 = ['a', 'N'] then some (.num "NaN", rest.drop 2) else none
      else if c = 'I' then
        if rest.take 7 = ['n', 'f', 'i', 'n', 'i', 't', 'y'] then
          some (.num "Infinity", rest.drop 7)
        else none
      else if c = '-' ∧ rest.take 8 = ['I', 'n', 'f', 'i', 'n', 'i', 't', 'y'] then
        some (.num "-Infinity", rest.drop 8)
      else (parseNumber (c :: rest)).map (fun p => (.num (String.mk p.1), p.2))

/-- Members of an object, positioned just after the opening brace.  The
closing brace is left unconsumed in the returned remainder. -/
def parseObjBody : Nat → List Char → Option (List (String × Json) × List Char)
  | 0, _ => none
  | fuel + 1, cs =>
    match skipWs cs with
    | '\x7d' :: r => some ([], '\x7d' :: r)
    | '"' :: r => parseMembers fuel r []
    | _ => none

/-- Remaining members, positioned just after the opening quote of a key.
The closing brace is left unconsumed in the returned remainder. -/
def parseMembers : Nat → List Char → List (String × Json) →
    Option (List (String × Json) × List Char)
  | 0, _, _ => none
  | fuel + 1, r, acc =>
    match parseStringChars (r.length + 1) r with
    | none => none
    | some (key, r1) =>
      match skipWs r1 with
      | ':' :: r2 =>
        match parseValue fuel (skipWs r2) with
        | none => none
        | some (v, r3) =>
          match skipWs r3 with
          | ',' :: r4 =>
            match skipWs r4 with
            | '"' :: r5 => parseMembers fuel r5 (acc ++ [(String.mk key, v)])
            | _ => none
          | '\x7d' :: r4 => some (acc ++ [(String.mk key, v)], '\x7d' :: r4)
          | _ => none
      | _ => none

/-- Elements of an array, positioned just after the opening bracket.
Consumes the closing bracket. -/
def parseArrBody : Nat → List Char → Option (List Json × List Char)
  | 0, _ => none
  | fuel + 1, cs =>
    match skipWs cs with
    | ']' :: r => some ([], r)
    | r => parseElems fuel r []

/-- Remaining elements, positioned at the start of a value (whitespace
already skipped).  Consumes the closing bracket. -/
def parseElems : Nat → List Char → List Json → Option (List Json × List Char)
  | 0, _, _ => none
  | fuel + 1, r, acc =>
    match parseValue fuel r with
    | none => none
    | some (v, r1) =>
      match skipWs r1 with
      | ',' :: r2 => parseElems fuel (skipWs r2) (acc ++ [v])
      | ']' :: r2 => some (acc ++ [v], r2)
      | _ => none

end

/-- Model of Python `json.loads`: a single JSON document with optional
surrounding whitespace and nothing else. -/
def jsonLoads (s : String) : Option Json :=
  let cs := skipWs s.data
  match parseValue (cs.length + 1) cs with
  | some (v, rest) => if skipWs rest = [] then some v else none
  | none => none


/-!
## Python-truthiness, key lookup and membership on parsed values
-/

/-- Is a JSON number lexeme numerically zero (`0`, `-0.00`, `0e9`, ...)? -/
def numLexIsZero (lex : String) : Bool :=
  let ds := lex.data.filter (fun c => c ≠ '-' ∧ c ≠ '.')
  let mant := ds.takeWhile (fun c => c ≠ 'e' ∧ c ≠ 'E')
  !mant.isEmpty && mant.all (fun c => c = '0')

/-- Python truthiness of a decoded JSON value. -/
def pyFalsy : Json → Bool
  | .null => true
  | .bool b => !b
  | .num lex => numLexIsZero lex
  | .str s => s.isEmpty
  | .arr xs => xs.isEmpty
  | .obj kvs => kvs.isEmpty

def Json.isArr : Json → Bool
  | .arr _ => true
  | _ => false

def Json.isObj : Json → Bool
  | .obj _ => true
  | _ => false

/-- Python `key in d` for a decoded object (`False` for non-objects never
arises at the call sites we model). -/
def jsonHasKey (j : Json) (k : String) : Bool :=
  match j with
  | .obj kvs => kvs.any (fun kv => kv.1 = k)
  | _ => false

/-- Python `d.get(k, dflt)`; with duplicate keys `json.loads` keeps the last
binding, so lookup scans from the right. -/
def jsonGet (j : Json) (k : String) (dflt : Json) : Json :=
  match j with
  | .obj kvs =>
    match kvs.reverse.find? (fun kv => kv.1 = k) with
    | some kv => kv.2
    | none => dflt
  | _ => dflt


/-!
## The structured-output extractor (`extract_json`, llm_client.py 382-425)

The source first deletes markdown code fences with
`re.sub(r"¬¬¬(?:json)?\s*", "", text)` followed by
`re.sub(r"¬¬¬\s*$", "", text, re.MULTILINE)` (¬ standing for the backtick),
then scans for a brace-balanced substring that `json.loads` accepts.
-/

/-- ASCII characters matched by the regex class `\s`. -/
def isRegexWs (c : Char) : Bool :=
  c = ' ' || c = '\t' || c = '\n' || c = '\r' || c = '\x0b' || c = '\x0c'

/-- First fence substitution: each occurrence of three backticks, optionally
followed by `json`, then greedy `\s*`, is deleted.  Matches are found left to
right on the original text, as `re.sub` does.  Fuel is the list length. -/
def stripFences1 : Nat → List Char → List Char
  | 0, l => l
  | fuel + 1, l =>
    match l with
    | [] => []
    | c :: cs =>
      if c = '\x60' ∧ cs.take 2 = ['\x60', '\x60'] then
        let rest := cs.drop 2
        let r1 := if rest.take 4 = ['j', 's', 'o', 'n'] then rest.drop 4 else rest
        stripFences1 fuel (r1.dropWhile isRegexWs)
      else c :: stripFences1 fuel cs

/-- Can the regex `\s*$` (multiline) match here?  The greedy `\s*` backtracks,
so a match exists iff some split of the whitespace run ends at the string end
or just before a newline; `re.sub` then consumes the longest such prefix. -/
def fence2Tail (rest : List Char) : Option (List Char) :=
  let ws := rest.takeWhile isRegexWs
  let tl := rest.dropWhile isRegexWs
  if tl = [] then some []
  else if ws.contains '\n' then
    some ('\n' :: (ws.reverse.takeWhile (fun c => c ≠ '\n')).reverse ++ tl)
  else none

/-- Second fence substitution: occurrences of three backticks followed by
`\s*` up to a line end are deleted.  (After the first substitution no three
consecutive backticks remain, so on real inputs this is the identity; it is
modeled for completeness.) -/
def stripFences2 : Nat → List Char → List Char
  | 0, l => l
  | fuel + 1, l =>
    match l with
    | [] => []
    | c :: cs =>
      if c = '\x60' ∧ cs.take 2 = ['\x60', '\x60'] then
        match fence2Tail (cs.drop 2) with
        | some tl => stripFences2 fuel tl
        | none => c :: stripFences2 fuel cs
      else c :: stripFences2 fuel cs

/-- The brace-balance scan of `extract_json`.  `all` is the full
(fence-stripped) text; the current index is recovered as
`all.length - remaining.length` since every step consumes one character.
State: `depth` (the `stack` list's length), `start` (index of the most recent
zero-to-one transition), `inStr` and `esc` (string-literal and escape flags). -/
def extractLoop (all : List Char) : List Char → Nat → Option Nat → Bool → Bool →
    Option (List Char)
  | [], _, _, _, _ => none
  | c :: rest, depth, start, inStr, esc =>
    if esc then
      extractLoop all rest depth start inStr false
    else if c = '\\' ∧ inStr then
      extractLoop all rest depth start inStr true
    else if c = '"' then
      extractLoop all rest depth start (!inStr) false
    else if inStr then
      extractLoop all rest depth start inStr false
    else if c = '\x7b' then
      let start' := if depth = 0 then some (all.length - (c :: rest).length) else start
      extractLoop all rest (depth + 1) start' inStr false
    else if c = '\x7d' then
      if depth = 0 then
        extractLoop all rest depth start inStr false
      else if depth = 1 then
        match start with
        | some s =>
          let i := all.length - (c :: rest).length
          let cand := (all.take (i + 1)).drop s
          if (jsonLoads (String.mk cand)).isSome then some cand
          else extractLoop all rest 0 start inStr false
        | none => extractLoop all rest 0 start inStr false
      else
        extractLoop all rest (depth - 1) start inStr false
    else
      extractLoop all rest depth start inStr false

/-- Model of `extract_json`: fence stripping, then the balanced scan;
`none` models the `ValueError` raised when no valid candidate is found. -/
def extract_json (text : String) : Option String :=
  let t1 := stripFences1 (text.data.length + 1) text.data
  let t2 := stripFences2 (t1.length + 1) t1
  (extractLoop t2 t2 0 none false false).map String.mk


/-!
## Error classification (`classify_error`, llm_client.py 207-235)

Input is the stringified exception; the source lowercases it and tests
substring vocabularies in a fixed order.
-/

def classify_error (error : String) : String :=
  let m := pyLower error
  if ["resource_exhausted", "quota", "429", "rate limit"].any (containsSub m) then "quota"
  else if ["authentication", "api key", "unauthenticated", "invalid key"].any (containsSub m) then
    "auth"
  else if ["permission", "forbidden", "403"].any (containsSub m) then "auth"
  else if ["not found", "404", "unknown model"].any (containsSub m) then "model"
  else if ["connection", "timeout", "network"].any (containsSub m) then "network"
  else if ["500", "503", "internal", "server error"].any (containsSub m) then "server"
  else "unknown"

/-- The classification rule as the (amended) specification states it: the
first row of a priority-ordered vocabulary table whose patterns match wins,
and anything matching no row is `unknown`. -/
def classifyTable : List (List String × String) :=
  [ (["resource_exhausted", "quota", "429", "rate limit"], "quota"),
    (["authentication", "api key", "unauthenticated", "invalid key"], "auth"),
    (["permission", "forbidden", "403"], "auth"),
    (["not found", "404", "unknown model"], "model"),
    (["connection", "timeout", "network"], "network"),
    (["500", "503", "internal", "server error"], "server") ]

def classifySpec (error : String) : String :=
  let m := pyLower error
  match classifyTable.find? (fun row => row.1.any (containsSub m)) with
  | some row => row.2
  | none => "unknown"


/-!
## The stub responder (`mock_llm`, llm_client.py 96-119)

Returns the exact `json.dumps` output of the canned responses for the three
agent-identifying markers, else the string of an empty record.
-/

def mock_llm (prompt : String) : String :=
  if containsSub prompt "Scanner" then
    "\x7b\"errors\": [\x7b\"type\": \"Syntax\", \"line\": 1, \"description\": \"Missing colon after function definition\"\x7d]\x7d"
  else if containsSub prompt "Fixer" then
    "\x7b\"fixed_code\": \"def foo():\\n    pass\", \"explanation\": \"Added missing colon after function definition\"\x7d"
  else if containsSub prompt "Validator" then
    "\x7b\"status\": \"Approved\", \"feedback\": \"The fix correctly resolves the syntax error\"\x7d"
  else "\x7b\x7d"

/-!
## JSON-safe call (`safe_llm_json_call`, llm_client.py 427-455)

The backend raw text is extracted, parsed and checked for required keys.
Exceptions become explicit error values; distinct tags record which Python
exception would be raised.
-/

inductive AgentErr where
  | invalidInput : AgentErr
  | attrError : AgentErr
  | noJson : AgentErr
  | missingKeys : AgentErr
deriving DecidableEq

/-- The extraction/validation part of `safe_llm_json_call`, applied to the
raw text the routed LLM call returned. -/
def safe_llm_json_call (raw : String) (required_keys : List String) :
    Except AgentErr Json :=
  match extract_json raw with
  | none => .error .noJson
  | some jsonStr =>
    match jsonLoads jsonStr with
    | none => .error .noJson
    | some parsed =>
      if required_keys.isEmpty then .ok parsed
      else
        let missing := required_keys.filter (fun k => !jsonHasKey parsed k)
        if missing.isEmpty then .ok parsed else .error .missingKeys


/-!
## Code normalization (`normalize_code`, orchestrator.py 32-56)

`textwrap.dedent` followed by `str.strip()`.  The dedent model follows the
classic CPython implementation: whitespace-only lines are first normalized to
empty, the margin is the longest common `[ \t]` prefix of the remaining
nonempty lines, and that margin is removed from the start of every line that
carries it.
-/

def isIndentWs (c : Char) : Bool :=
  c = ' ' || c = '\t'

def splitNLAux : List Char → List Char → List (List Char)
  | [], acc => [acc.reverse]
  | '\n' :: t, acc => acc.reverse :: splitNLAux t []
  | c :: t, acc => splitNLAux t (c :: acc)

/-- Python `text.split(chr(10))`. -/
def splitNL (cs : List Char) : List (List Char) :=
  splitNLAux cs []

/-- Longest common prefix of two character lists. -/
def lcp : List Char → List Char → List Char
  | a :: as, b :: bs => if a = b then a :: lcp as bs else []
  | _, _ => []

def pyDedent (text : String) : String :=
  let lines := splitNL text.data
  let blanked := lines.map (fun l => if !l.isEmpty && l.all isIndentWs then [] else l)
  let indents := blanked.filterMap
    (fun l => if l.isEmpty then none else some (l.takeWhile isIndentWs))
  let margin :=
    match indents with
    | [] => []
    | i :: is => is.foldl lcp i
  let final :=
    if margin.isEmpty then blanked
    else blanked.map (fun l => if margin.isPrefixOf l then l.drop margin.length else l)
  String.mk (List.intercalate ['\n'] final)

def normalize_code (code : String) : String :=
  pyStrip (pyDedent code)


/-!
## Agent invocations (agents.py)

The routed backend (`call_llm`) never raises — every failure path degrades to
the stub — so it is abstracted as a total oracle `llm : Nat → String` giving
the raw text of the n-th backend call of the session.  Each agent threads the
call counter; an agent that fails its preconditions returns the counter
unchanged, which makes "no backend call was made" an observable fact.
Prompt construction is literal placeholder substitution into opaque template
text and does not influence any modeled result, so it is elided.

Field values drawn from parsed JSON are arbitrary `Json` values, exactly as
in the dynamically typed source.
-/

structure ScannerRes where
  errors : Json

structure FixerRes where
  fixed_code : Json
  explanation : Json

structure ValidatorRes where
  status : Json
  feedback : Json

/-- `scanner_agent` (agents.py 58-92): empty/whitespace-only code raises
`ValueError` before the backend call; otherwise one call, requiring key
`errors`. -/
def scanner_agent (llm : Nat → String) (k : Nat) (code : String) :
    Except AgentErr ScannerRes × Nat :=
  if pyStrip code = "" then (.error .invalidInput, k)
  else
    match safe_llm_json_call (llm k) ["errors"] with
    | .error e => (.error e, k + 1)
    | .ok parsed => (.ok ⟨jsonGet parsed "errors" (.arr [])⟩, k + 1)

/-- Does some entry of the error list fail `fixer_agent`'s structure check
(`isinstance(err, dict) and "type" in err and "description" in err`)? -/
def hasBadEntry (errors : Json) : Bool :=
  match errors with
  | .arr l => l.any (fun e => !(e.isObj && jsonHasKey e "type" && jsonHasKey e "description"))
  | _ => false

/-- `fixer_agent` (agents.py 99-160): validates code, the error list and each
entry before the backend call; requires keys `fixed_code` and `explanation`. -/
def fixer_agent (llm : Nat → String) (k : Nat) (code : String) (errors : Json) :
    Except AgentErr FixerRes × Nat :=
  if pyStrip code = "" then (.error .invalidInput, k)
  else if pyFalsy errors || !errors.isArr then (.error .invalidInput, k)
  else if hasBadEntry errors then (.error .invalidInput, k)
  else
    match safe_llm_json_call (llm k) ["fixed_code", "explanation"] with
    | .error e => (.error e, k + 1)
    | .ok parsed =>
      (.ok ⟨jsonGet parsed "fixed_code" (.str ""), jsonGet parsed "explanation" (.str "")⟩, k + 1)

/-- `validator_agent` (agents.py 167-226): validates the original code, the
proposed fix and the error list — but not the entries' structure — before the
backend call; requires keys `status` and `feedback`.  A non-string truthy
`fixed` raises `AttributeError` at `fixed.strip()`. -/
def validator_agent (llm : Nat → String) (k : Nat) (original : String) (fixed : Json)
    (errors : Json) : Except AgentErr ValidatorRes × Nat :=
  if pyStrip original = "" then (.error .invalidInput, k)
  else if pyFalsy fixed then (.error .invalidInput, k)
  else
    match fixed with
    | .str f =>
      if pyStrip f = "" then (.error .invalidInput, k)
      else if pyFalsy errors || !errors.isArr then (.error .invalidInput, k)
      else
        match safe_llm_json_call (llm k) ["status", "feedback"] with
        | .error e => (.error e, k + 1)
        | .ok parsed =>
          (.ok ⟨jsonGet parsed "status" (.str "Rejected"),
                jsonGet parsed "feedback" (.str "No feedback provided")⟩, k + 1)
    | _ => (.error .attrError, k)

/-!
## The orchestrator (`debug_code`, orchestrator.py 63-219)
-/

def MAX_FIX_RETRIES : Nat := 3

inductive Status where
  | IN_PROGRESS : Status
  | NO_ERRORS : Status
  | FIXED : Status
  | FAILED : Status
deriving DecidableEq

structure FixAttempt where
  attempt : Nat
  fixed_code : Json
  explanation : Json
  validation : ValidatorRes

structure DebugState where
  original_code : String
  detected_errors : Json
  fix_attempts : List FixAttempt
  final_code : Option String
  status : Status

/-- Outcome of one iteration of the fix/validate loop body
(orchestrator.py 165-211). -/
inductive AttemptOutcome where
  | exn : AttemptOutcome
  | recordedExn (a : FixAttempt) : AttemptOutcome
  | approved (a : FixAttempt) (finalCode : String) : AttemptOutcome
  | rejected (a : FixAttempt) : AttemptOutcome

/-- One iteration of the fix/validate loop: run Fixer then Validator; on
success append the attempt record; approve on a case-insensitive `approved`
status.  An exception anywhere in the body is caught by the orchestrator
(`exn` before the append, `recordedExn` after: a non-string status raises
`AttributeError` at `.lower()`, a non-string approved fix raises `TypeError`
inside `normalize_code`). -/
def runFixAttempt (llm : Nat → String) (k : Nat) (code : String) (errors : Json)
    (n : Nat) : AttemptOutcome × Nat :=
  match fixer_agent llm k code errors with
  | (.error _, k1) => (.exn, k1)
  | (.ok fx, k1) =>
    match validator_agent llm k1 code fx.fixed_code errors with
    | (.error _, k2) => (.exn, k2)
    | (.ok vl, k2) =>
      let att : FixAttempt := ⟨n, fx.fixed_code, fx.explanation, vl⟩
      match vl.status with
      | .str s =>
        if pyLower s = "approved" then
          match fx.fixed_code with
          | .str f => (.approved att (normalize_code f), k2)
          | _ => (.recordedExn att, k2)
        else (.rejected att, k2)
      | _ => (.recordedExn att, k2)

/-- The retry loop (orchestrator.py 162-211): up to `remaining` iterations,
each recording an attempt only when both agent calls return. -/
def fixVerifyLoop (llm : Nat → String) (code : String) (errors : Json) :
    Nat → Nat → Nat → List FixAttempt → List FixAttempt × Option String × Status × Nat
  | 0, _, k, attempts => (attempts, none, .FAILED, k)
  | remaining + 1, n, k, attempts =>
    match runFixAttempt llm k code errors n with
    | (.exn, k1) => fixVerifyLoop llm code errors remaining (n + 1) k1 attempts
    | (.recordedExn att, k1) =>
      fixVerifyLoop llm code errors remaining (n + 1) k1 (attempts ++ [att])
    | (.approved att fin, k1) => (attempts ++ [att], some fin, .FIXED, k1)
    | (.rejected att, k1) =>
      fixVerifyLoop llm code errors remaining (n + 1) k1 (attempts ++ [att])

/-- `debug_code`, the session entry point (`runSession`): scan, then the
bounded fix/validate loop.  Returns the final state together with the number
of backend calls consumed. -/
def debug_code (llm : Nat → String) (code : String) : DebugState × Nat :=
  match scanner_agent llm 0 code with
  | (.error _, k) => (⟨code, .arr [], [], none, .FAILED⟩, k)
  | (.ok scan, k) =>
    if pyFalsy scan.errors then (⟨code, scan.errors, [], some code, .NO_ERRORS⟩, k)
    else
      match fixVerifyLoop llm code scan.errors MAX_FIX_RETRIES 1 k [] with
      | (attempts, fin, st, k1) => (⟨code, scan.errors, attempts, fin, st⟩, k1)


/-!
## The gateway retry loop (`call_gemini`, llm_client.py 241-337)

The loop issues the call, classifies a failure with `classify_error` and
reacts: `model` → try the fallback-model search, continue on success, stub on
failure; `auth`/`quota`/`unknown` → stub immediately; `network`/`server` →
sleep and retry until the attempt bound, then stub.  The backend is an oracle
from the attempt number to either response text or the raised exception's
message; `try_fallback_models` is an oracle giving the newly selected model,
if any.  Sleeps are recorded rather than performed; delays are exact
rationals.
-/

def MAX_API_RETRIES : Nat := 2

def INITIAL_RETRY_DELAY : ℚ := 2

def RETRY_BACKOFF_MULTIPLIER : ℚ := 2

structure GeminiTrace where
  result : String
  usedMock : Bool
  sleeps : List ℚ
  callsMade : Nat
  currentModel : String
deriving DecidableEq

/-- The `for attempt in range(MAX_API_RETRIES + 1)` loop.  `left` is the
number of attempts remaining; `attempt = MAX_API_RETRIES + 1 - left`. -/
def callGeminiLoop (gen : Nat → Except String String) (fb : Nat → Option String)
    (mockResp : String) :
    Nat → Nat → ℚ → String → List ℚ → Nat → GeminiTrace
  | 0, _, _, model, sleeps, calls => ⟨mockResp, true, sleeps, calls, model⟩
  | left + 1, attempt, delay, model, sleeps, calls =>
    match gen attempt with
    | .ok text => ⟨pyStrip text, false, sleeps, calls + 1, model⟩
    | .error msg =>
      let cat := classify_error msg
      if cat = "model" then
        match fb attempt with
        | some m =>
          callGeminiLoop gen fb mockResp left (attempt + 1) delay m sleeps (calls + 1)
        | none => ⟨mockResp, true, sleeps, calls + 1, model⟩
      else if cat = "auth" then ⟨mockResp, true, sleeps, calls + 1, model⟩
      else if cat = "quota" then ⟨mockResp, true, sleeps, calls + 1, model⟩
      else if cat = "network" ∨ cat = "server" then
        if attempt < MAX_API_RETRIES then
          callGeminiLoop gen fb mockResp left (attempt + 1)
            (delay * RETRY_BACKOFF_MULTIPLIER) model (sleeps ++ [delay]) (calls + 1)
        else ⟨mockResp, true, sleeps, calls + 1, model⟩
      else ⟨mockResp, true, sleeps, calls + 1, model⟩

/-- `call_gemini` once a model is initialized (the pre-loop initialization
branch at 245-256 degrades to the stub before any attempt and is not part of
the retry policy). -/
def call_gemini (gen : Nat → Except String String) (fb : Nat → Option String)
    (mockResp : String) (model0 : String) : GeminiTrace :=
  callGeminiLoop gen fb mockResp (MAX_API_RETRIES + 1) 0 INITIAL_RETRY_DELAY model0 [] 0


/-!
## Concrete session oracles used by witnesses and counterexamples
-/

/-- Scan finds one error, then no later call ever yields structured output. -/
def llmBadFixes : Nat → String
  | 0 => "\x7b\"errors\": [\x7b\"type\": \"Syntax\", \"description\": \"d\"\x7d]\x7d"
  | _ => "no structured output"

/-- Scan finds one error; every fix is produced and every validation rejects. -/
def llmAllRejected : Nat → String
  | 0 => "\x7b\"errors\": [\x7b\"type\": \"Syntax\", \"description\": \"d\"\x7d]\x7d"
  | 1 => "\x7b\"fixed_code\": \"y = 2\", \"explanation\": \"e\"\x7d"
  | 3 => "\x7b\"fixed_code\": \"y = 2\", \"explanation\": \"e\"\x7d"
  | 5 => "\x7b\"fixed_code\": \"y = 2\", \"explanation\": \"e\"\x7d"
  | _ => "\x7b\"status\": \"Rejected\", \"feedback\": \"no\"\x7d"

/-- The error list reported by `llmBadFixes`/`llmAllRejected`. -/
def oneSyntaxError : Json :=
  .arr [.obj [("type", .str "Syntax"), ("description", .str "d")]]

/-- Scan reports an empty error list. -/
def llmNoErrors : Nat → String :=
  fun _ => "\x7b\"errors\": []\x7d"

/-- A fixer response with indented code followed by an upper-case approval. -/
def llmApproves : Nat → String
  | 0 => "\x7b\"fixed_code\": \"  y = 2\", \"explanation\": \"e\"\x7d"
  | _ => "\x7b\"status\": \"APPROVED\", \"feedback\": \"g\"\x7d"

/-- A validator response used to show the missing per-entry precondition. -/
def llmRejects : Nat → String :=
  fun _ => "\x7b\"status\": \"Rejected\", \"feedback\": \"ok\"\x7d"

/-!
# Theorems

Helper lemmas about the fix/validate loop, then the claims.
-/

theorem fixVerifyLoop_length_le (llm : Nat → String) (code : String) (errors : Json) :
    ∀ (rem n k : Nat) (attempts : List FixAttempt),
      (fixVerifyLoop llm code errors rem n k attempts).1.length ≤ attempts.length + rem := by
  intro rem
  induction rem with
  | zero => intro n k attempts; simp [fixVerifyLoop]
  | succ m ih =>
    intro n k attempts
    rcases h : runFixAttempt llm k code errors n with ⟨out, k1⟩
    cases out with
    | exn =>
      have hih := ih (n + 1) k1 attempts
      simp only [fixVerifyLoop, h]
      omega
    | recordedExn att =>
      have hih := ih (n + 1) k1 (attempts ++ [att])
      simp only [fixVerifyLoop, h]
      simp only [List.length_append, List.length_cons, List.length_nil] at hih
      omega
    | approved att fin =>
      simp only [fixVerifyLoop, h, List.length_append, List.length_cons, List.length_nil]
      omega
    | rejected att =>
      have hih := ih (n + 1) k1 (attempts ++ [att])
      simp only [fixVerifyLoop, h]
      simp only [List.length_append, List.length_cons, List.length_nil] at hih
      omega

theorem fixVerifyLoop_final_status (llm : Nat → String) (code : String) (errors : Json) :
    ∀ (rem n k : Nat) (attempts : List FixAttempt),
      ((fixVerifyLoop llm code errors rem n k attempts).2.2.1 = .FIXED ∨
        (fixVerifyLoop llm code errors rem n k attempts).2.2.1 = .FAILED) ∧
      ((fixVerifyLoop llm code errors rem n k attempts).2.1.isSome = true ↔
        (fixVerifyLoop llm code errors rem n k attempts).2.2.1 = .FIXED) := by
  intro rem
  induction rem with
  | zero => intro n k attempts; simp [fixVerifyLoop]
  | succ m ih =>
    intro n k attempts
    rcases h : runFixAttempt llm k code errors n with ⟨out, k1⟩
    cases out with
    | exn => simpa only [fixVerifyLoop, h] using ih (n + 1) k1 attempts
    | recordedExn att => simpa only [fixVerifyLoop, h] using ih (n + 1) k1 (attempts ++ [att])
    | approved att fin => simp [fixVerifyLoop, h]
    | rejected att => simpa only [fixVerifyLoop, h] using ih (n + 1) k1 (attempts ++ [att])

/-- C3: whenever the scan succeeds and Python-truthiness finds the reported
error set empty, the session returns status `NO_ERRORS` with the final output
exactly the original input (no normalization), zero attempts, and no further
backend calls. -/
theorem no_errors_returns_input_unchanged (llm : Nat → String) (code : String)
    (sr : ScannerRes) (k : Nat)
    (hscan : scanner_agent llm 0 code = (.ok sr, k))
    (hempty : pyFalsy sr.errors = true) :
    debug_code llm code = (⟨code, sr.errors, [], some code, .NO_ERRORS⟩, k) := by
  simp [debug_code, hscan, hempty]

/-- Witness for C3 at a concrete oracle reporting an empty error list. -/
theorem no_errors_returns_input_unchanged_witness :
    debug_code llmNoErrors "x = 1" = (⟨"x = 1", .arr [], [], some "x = 1", .NO_ERRORS⟩, 1) :=
  no_errors_returns_input_unchanged llmNoErrors "x = 1" ⟨.arr []⟩ 1 rfl rfl

/-- C4: in every state the session entry point returns, the final output is
set exactly when the status is `FIXED` or `NO_ERRORS`; every `FAILED` path
leaves it unset. -/
theorem final_code_iff_success (llm : Nat → String) (code : String) :
    (debug_code llm code).1.final_code.isSome = true ↔
      ((debug_code llm code).1.status = .FIXED ∨
        (debug_code llm code).1.status = .NO_ERRORS) := by
  rcases hscan : scanner_agent llm 0 code with ⟨res, k⟩
  cases res with
  | error e => simp [debug_code, hscan]
  | ok scan =>
    by_cases hf : pyFalsy scan.errors = true
    · simp [debug_code, hscan, hf]
    · rcases hloop : fixVerifyLoop llm code scan.errors MAX_FIX_RETRIES 1 k [] with
        ⟨atts, fin, st, kk⟩
      have h2 := fixVerifyLoop_final_status llm code scan.errors MAX_FIX_RETRIES 1 k []
      rw [hloop] at h2
      rcases h2 with ⟨hstok, hiff⟩
      simp only at hstok hiff
      simp only [debug_code, hscan, hf, Bool.false_eq_true, if_false, hloop]
      constructor
      · intro hs; exact Or.inl (hiff.mp hs)
      · rintro (h | h)
        · exact hiff.mpr h
        · rcases hstok with h1 | h1 <;> rw [h1] at h <;> exact (by cases h)

/-- C5: on any attempt whose Verify verdict string equals `approved` under
case-insensitive comparison, the loop stops with status `FIXED` and the final
output is the proposed code dedented and stripped (`normalize_code`); any
other verdict string does not produce `FIXED` on that attempt. -/
theorem approved_verdict_fixes (llm : Nat → String) (k k1 k2 : Nat) (code : String)
    (errors : Json) (fx : FixerRes) (vl : ValidatorRes) (s f : String) (n : Nat)
    (hf : fixer_agent llm k code errors = (.ok fx, k1))
    (hv : validator_agent llm k1 code fx.fixed_code errors = (.ok vl, k2))
    (hs : vl.status = .str s) (hfx : fx.fixed_code = .str f) :
    (pyLower s = "approved" →
      runFixAttempt llm k code errors n =
        (.approved ⟨n, fx.fixed_code, fx.explanation, vl⟩ (normalize_code f), k2) ∧
      ∀ (rem : Nat) (attempts : List FixAttempt),
        fixVerifyLoop llm code errors (rem + 1) n k attempts =
          (attempts ++ [⟨n, fx.fixed_code, fx.explanation, vl⟩], some (normalize_code f),
            .FIXED, k2)) ∧
    (pyLower s ≠ "approved" →
      runFixAttempt llm k code errors n =
        (.rejected ⟨n, fx.fixed_code, fx.explanation, vl⟩, k2)) := by
  rw [hfx] at hv
  constructor
  · intro happ
    have hrun : runFixAttempt llm k code errors n =
        (.approved ⟨n, fx.fixed_code, fx.explanation, vl⟩ (normalize_code f), k2) := by
      simp only [runFixAttempt, hf, hfx, hv, hs, happ, if_true]
    refine ⟨hrun, ?_⟩
    intro rem attempts
    simp only [fixVerifyLoop, hrun]
  · intro hne
    simp only [runFixAttempt, hf, hfx, hv, hs]
    simp [hne]

/-- Witness for C5: a concrete upper-case `APPROVED` verdict finishes the
attempt with the dedented, stripped fix. -/
theorem approved_verdict_fixes_witness :
    runFixAttempt llmApproves 0 "x = 1" oneSyntaxError 1 =
      (.approved ⟨1, .str "  y = 2", .str "e", ⟨.str "APPROVED", .str "g"⟩⟩ "y = 2", 2) :=
  ((approved_verdict_fixes llmApproves 0 1 2 "x = 1" oneSyntaxError
      ⟨.str "  y = 2", .str "e"⟩ ⟨.str "APPROVED", .str "g"⟩ "APPROVED" "  y = 2" 1
      rfl rfl rfl rfl).1 rfl).1

theorem fixVerifyLoop_rejected_step (llm : Nat → String) (code : String) (errors : Json)
    (rem n k k1 : Nat) (att : FixAttempt) (attempts : List FixAttempt)
    (h : runFixAttempt llm k code errors n = (.rejected att, k1)) :
    fixVerifyLoop llm code errors (rem + 1) n k attempts =
      fixVerifyLoop llm code errors rem (n + 1) k1 (attempts ++ [att]) := by
  simp only [fixVerifyLoop, h]

/-- C2 (amended): the recorded attempt list never exceeds the retry bound; it
is empty when the status is `NO_ERRORS` and when the scan fails; and it equals
the bound exactly when the session fails by exhaustion with every loop
iteration recording a (rejected) attempt.  An iteration whose agent calls
raise records nothing while still consuming a loop slot, so a
failed-by-exhaustion session can hold fewer than the bound. -/
theorem attempt_list_bounds (llm : Nat → String) (code : String) :
    (debug_code llm code).1.fix_attempts.length ≤ MAX_FIX_RETRIES
  ∧ ((debug_code llm code).1.status = .NO_ERRORS →
      (debug_code llm code).1.fix_attempts.length = 0)
  ∧ (∀ (e : AgentErr) (k : Nat), scanner_agent llm 0 code = (.error e, k) →
      (debug_code llm code).1.status = .FAILED ∧
        (debug_code llm code).1.fix_attempts = [])
  ∧ (∀ (sr : ScannerRes) (k : Nat), scanner_agent llm 0 code = (.ok sr, k) →
      pyFalsy sr.errors = false →
      (∀ i, i < MAX_FIX_RETRIES → ∃ att,
        runFixAttempt llm (k + 2 * i) code sr.errors (1 + i) =
          (.rejected att, k + 2 * (i + 1))) →
      (debug_code llm code).1.status = .FAILED ∧
        (debug_code llm code).1.fix_attempts.length = MAX_FIX_RETRIES) := by
  refine ⟨?_, ?_, ?_, ?_⟩
  · rcases hscan : scanner_agent llm 0 code with ⟨res, k⟩
    cases res with
    | error e => simp [debug_code, hscan]
    | ok scan =>
      by_cases hf : pyFalsy scan.errors = true
      · simp [debug_code, hscan, hf]
      · rcases hloop : fixVerifyLoop llm code scan.errors MAX_FIX_RETRIES 1 k [] with
          ⟨atts, fin, st, kk⟩
        have hlen := fixVerifyLoop_length_le llm code scan.errors MAX_FIX_RETRIES 1 k []
        rw [hloop] at hlen
        simp only [List.length_nil, Nat.zero_add] at hlen
        simp only [debug_code, hscan, hf, Bool.false_eq_true, if_false, hloop]
        exact hlen
  · intro hst
    rcases hscan : scanner_agent llm 0 code with ⟨res, k⟩
    cases res with
    | error e => simp [debug_code, hscan] at hst ⊢
    | ok scan =>
      by_cases hf : pyFalsy scan.errors = true
      · simp [debug_code, hscan, hf]
      · rcases hloop : fixVerifyLoop llm code scan.errors MAX_FIX_RETRIES 1 k [] with
          ⟨atts, fin, st, kk⟩
        have h2 := (fixVerifyLoop_final_status llm code scan.errors MAX_FIX_RETRIES 1 k []).1
        rw [hloop] at h2
        simp only [debug_code, hscan, hf, Bool.false_eq_true, if_false, hloop] at hst
        simp only at h2
        rcases h2 with h1 | h1 <;> rw [h1] at hst <;> exact (by cases hst)
  · intro e k hscan
    simp [debug_code, hscan]
  · intro sr k hscan hne hiter
    obtain ⟨a1, h1⟩ := hiter 0 (by decide)
    obtain ⟨a2, h2⟩ := hiter 1 (by decide)
    obtain ⟨a3, h3⟩ := hiter 2 (by decide)
    norm_num at h1 h2 h3
    have hloop : fixVerifyLoop llm code sr.errors MAX_FIX_RETRIES 1 k [] =
        ([a1, a2, a3], none, .FAILED, k + 6) := by
      show fixVerifyLoop llm code sr.errors (2 + 1) 1 k [] = ([a1, a2, a3], none, .FAILED, k + 6)
      rw [fixVerifyLoop_rejected_step llm code sr.errors 2 1 k (k + 2) a1 [] h1]
      show fixVerifyLoop llm code sr.errors (1 + 1) 2 (k + 2) [a1] =
        ([a1, a2, a3], none, .FAILED, k + 6)
      rw [fixVerifyLoop_rejected_step llm code sr.errors 1 2 (k + 2) (k + 4) a2 [a1] h2]
      show fixVerifyLoop llm code sr.errors (0 + 1) 3 (k + 4) [a1, a2] =
        ([a1, a2, a3], none, .FAILED, k + 6)
      rw [fixVerifyLoop_rejected_step llm code sr.errors 0 3 (k + 4) (k + 6) a3 [a1, a2] h3]
      simp [fixVerifyLoop]
    constructor
    · simp [debug_code, hscan, hne, hloop]
    · simp [debug_code, hscan, hne, hloop]
      try decide

/-- Witness for C2: with a scan reporting one error and three recorded
rejections, the session fails by exhaustion with exactly the bound's worth of
attempts. -/
theorem attempt_list_bounds_witness :
    (debug_code llmAllRejected "x = 1").1.status = .FAILED ∧
      (debug_code llmAllRejected "x = 1").1.fix_attempts.length = MAX_FIX_RETRIES :=
  (attempt_list_bounds llmAllRejected "x = 1").2.2.2 ⟨oneSyntaxError⟩ 1 rfl rfl
    (fun i hi =>
      match i, hi with
      | 0, _ => ⟨⟨1, .str "y = 2", .str "e", ⟨.str "Rejected", .str "no"⟩⟩, rfl⟩
      | 1, _ => ⟨⟨2, .str "y = 2", .str "e", ⟨.str "Rejected", .str "no"⟩⟩, rfl⟩
      | 2, _ => ⟨⟨3, .str "y = 2", .str "e", ⟨.str "Rejected", .str "no"⟩⟩, rfl⟩)

/-- Counterexample for C2 as stated: the scan succeeds with one error (so the
`FAILED` outcome arises from exhausting the fix/verify loop, not from a
Scanning failure), yet no attempt is recorded because every iteration's Fixer
call raises — the attempt count is 0, not the bound. -/
theorem attempt_list_bounds_counterexample :
    (debug_code llmBadFixes "x = 1").1.status = .FAILED ∧
      (debug_code llmBadFixes "x = 1").1.fix_attempts.length = 0 ∧
      pyFalsy (debug_code llmBadFixes "x = 1").1.detected_errors = false ∧
      (0 : Nat) ≠ MAX_FIX_RETRIES :=
  ⟨rfl, rfl, rfl, by decide⟩

/-- C6 (amended): the modeled precondition checks of the three agents all
fail with `InvalidInput` before any backend call (the call counter is
unchanged): empty/whitespace-only code for all three; a falsy or non-list
error set for Fixer and Validator; a structurally bad error entry for Fixer
only; an empty/falsy proposed fix for Validator. -/
theorem agent_preconditions (llm : Nat → String) (k : Nat) :
    (∀ code, pyStrip code = "" → scanner_agent llm k code = (.error .invalidInput, k))
  ∧ (∀ code errors,
      pyStrip code = "" ∨ pyFalsy errors = true ∨ errors.isArr = false ∨
        hasBadEntry errors = true →
      fixer_agent llm k code errors = (.error .invalidInput, k))
  ∧ (∀ original fixed errors, pyStrip original = "" →
      validator_agent llm k original fixed errors = (.error .invalidInput, k))
  ∧ (∀ original fixed errors, pyFalsy fixed = true →
      validator_agent llm k original fixed errors = (.error .invalidInput, k))
  ∧ (∀ original f errors, pyStrip f = "" →
      validator_agent llm k original (.str f) errors = (.error .invalidInput, k))
  ∧ (∀ original f errors, pyFalsy errors = true ∨ errors.isArr = false →
      validator_agent llm k original (.str f) errors = (.error .invalidInput, k)) := by
  refine ⟨?_, ?_, ?_, ?_, ?_, ?_⟩
  · intro code hc
    simp [scanner_agent, hc]
  · intro code errors h
    by_cases hc : pyStrip code = ""
    · simp [fixer_agent, hc]
    · rcases h with h | h | h | h
      · exact absurd h hc
      · simp [fixer_agent, hc, h]
      · simp [fixer_agent, hc, h]
      · by_cases he : (pyFalsy errors || !errors.isArr) = true
        · simp [fixer_agent, hc, he]
        · simp [fixer_agent, hc, he, h]
  · intro original fixed errors ho
    simp [validator_agent, ho]
  · intro original fixed errors hfx
    by_cases ho : pyStrip original = "" <;> simp [validator_agent, ho, hfx]
  · intro original f errors hf
    by_cases ho : pyStrip original = ""
    · simp [validator_agent, ho]
    · by_cases hfx : pyFalsy (Json.str f) = true
      · simp [validator_agent, ho, hfx]
      · simp [validator_agent, ho, hfx, hf]
  · intro original f errors h
    by_cases ho : pyStrip original = ""
    · simp [validator_agent, ho]
    · by_cases hfx : pyFalsy (Json.str f) = true
      · simp [validator_agent, ho, hfx]
      · by_cases hsf : pyStrip f = ""
        · simp [validator_agent, ho, hfx, hsf]
        · rcases h with h | h <;> simp [validator_agent, ho, hfx, hsf, h]

/-- Witness for C6: whitespace-only code is rejected by the scanner with no
backend call consumed. -/
theorem agent_preconditions_witness :
    scanner_agent (fun _ => "") 0 "  " = (.error .invalidInput, 0) :=
  (agent_preconditions (fun _ => "") 0).1 "  " rfl

/-- Counterexample for C6 as stated: Validator does not check the error
entries' structure — an entry with neither a kind/type nor a description
still reaches the backend (the call counter advances and the result is the
parsed verdict, not `InvalidInput`). -/
theorem agent_preconditions_counterexample :
    validator_agent llmRejects 0 "x = 1" (.str "y = 2") (.arr [.obj []]) =
      (.ok ⟨.str "Rejected", .str "ok"⟩, 1) ∧
    hasBadEntry (.arr [.obj []]) = true :=
  ⟨rfl, rfl⟩

/-- C7 (amended): on empty or whitespace-only input the Detect agent raises
`InvalidInput` before any backend call; the session entry point catches it
and returns a `FAILED` record with no attempts and no calls consumed — and no
session ever escapes with the transient `IN_PROGRESS` status (the model is a
total function: nothing propagates). -/
theorem empty_input_fails_fast :
    (∀ (llm : Nat → String) (code : String), pyStrip code = "" →
      scanner_agent llm 0 code = (.error .invalidInput, 0) ∧
        debug_code llm code = (⟨code, .arr [], [], none, .FAILED⟩, 0))
  ∧ (∀ (llm : Nat → String) (code : String),
      (debug_code llm code).1.status ≠ .IN_PROGRESS) := by
  constructor
  · intro llm code hc
    have hs : scanner_agent llm 0 code = (.error .invalidInput, 0) := by
      simp [scanner_agent, hc]
    exact ⟨hs, by simp [debug_code, hs]⟩
  · intro llm code
    rcases hscan : scanner_agent llm 0 code with ⟨res, k⟩
    cases res with
    | error e => simp [debug_code, hscan]
    | ok scan =>
      by_cases hf : pyFalsy scan.errors = true
      · simp [debug_code, hscan, hf]
      · rcases hloop : fixVerifyLoop llm code scan.errors MAX_FIX_RETRIES 1 k [] with
          ⟨atts, fin, st, kk⟩
        have h2 := (fixVerifyLoop_final_status llm code scan.errors MAX_FIX_RETRIES 1 k []).1
        rw [hloop] at h2
        simp only at h2
        simp only [debug_code, hscan, hf, Bool.false_eq_true, if_false, hloop]
        rcases h2 with h1 | h1 <;> simp [h1]

/-- Witness for C7 at whitespace-only input. -/
theorem empty_input_fails_fast_witness :
    scanner_agent (fun _ => "x") 0 " \n" = (.error .invalidInput, 0) ∧
      debug_code (fun _ => "x") " \n" = (⟨" \n", .arr [], [], none, .FAILED⟩, 0) :=
  empty_input_fails_fast.1 (fun _ => "x") " \n" rfl

/-- Counterexample for C7 as stated: on empty input `debug_code` does not
fail fast to its caller — it returns an ordinary `FAILED` status record (with
zero backend calls), so the claimed `InvalidInput` escape never happens. -/
theorem empty_input_fails_fast_counterexample :
    debug_code (fun _ => "") "" = (⟨"", .arr [], [], none, .FAILED⟩, 0) :=
  rfl

/-- C8 (amended): `classify_error` is a total pure function over error text
that agrees everywhere with the priority-ordered vocabulary table
`classifyTable` (first matching row wins, `unknown` when no row matches), and
its result is always one of the six tags. -/
theorem classify_error_total_table (e : String) :
    classify_error e = classifySpec e ∧
      classify_error e ∈ ["quota", "auth", "model", "network", "server", "unknown"] := by
  constructor
  · by_cases h1 :
      (["resource_exhausted", "quota", "429", "rate limit"].any (containsSub (pyLower e))) =
        true <;>
    by_cases h2 :
      (["authentication", "api key", "unauthenticated", "invalid key"].any
        (containsSub (pyLower e))) = true <;>
    by_cases h3 : (["permission", "forbidden", "403"].any (containsSub (pyLower e))) = true <;>
    by_cases h4 : (["not found", "404", "unknown model"].any (containsSub (pyLower e))) = true <;>
    by_cases h5 : (["connection", "timeout", "network"].any (containsSub (pyLower e))) = true <;>
    by_cases h6 :
      (["500", "503", "internal", "server error"].any (containsSub (pyLower e))) = true <;>
    simp [classify_error, classifySpec, classifyTable, List.find?, h1, h2, h3, h4, h5, h6]
  · simp only [classify_error]
    repeat' split
    all_goals simp

/-- Counterexample for C8 as stated: the message `authentication failure`
contains none of the substrings the claim enumerates, so the claim maps it to
`unknown`, yet the code classifies it as an auth failure (the source
vocabulary is larger than the claimed one, and rows are tried in priority
order). -/
theorem classify_error_counterexample :
    classify_error "authentication failure" = "auth" ∧
      (["quota", "429", "rate limit", "permission", "403", "forbidden", "not found", "404",
        "timeout", "connection", "500", "503"].all
          (fun p => !containsSub "authentication failure" p)) = true ∧
      ("auth" : String) ≠ "unknown" :=
  ⟨rfl, rfl, by decide⟩

/-- C9: the gateway's reaction to a classified failure: `auth`/`quota`
degrade to the stub at once with no retry and no sleep; `unknown` degrades at
once; `network`/`server` failures retry the same model with exponential
backoff until the attempt bound and then degrade to the stub; a retry that
succeeds returns the (stripped) backend text.  Every degradation path returns
the stub's text rather than raising. -/
theorem gateway_escalation_policy (gen : Nat → Except String String)
    (fb : Nat → Option String) (mockResp model0 : String) :
    (∀ m, gen 0 = .error m →
      classify_error m = "auth" ∨ classify_error m = "quota" →
      call_gemini gen fb mockResp model0 = ⟨mockResp, true, [], 1, model0⟩)
  ∧ (∀ m, gen 0 = .error m → classify_error m = "unknown" →
      call_gemini gen fb mockResp model0 = ⟨mockResp, true, [], 1, model0⟩)
  ∧ ((∀ i, i ≤ MAX_API_RETRIES → ∃ m, gen i = .error m ∧
        (classify_error m = "network" ∨ classify_error m = "server")) →
      call_gemini gen fb mockResp model0 =
        ⟨mockResp, true,
          [INITIAL_RETRY_DELAY, INITIAL_RETRY_DELAY * RETRY_BACKOFF_MULTIPLIER],
          MAX_API_RETRIES + 1, model0⟩)
  ∧ (∀ m t, gen 0 = .error m →
      classify_error m = "network" ∨ classify_error m = "server" →
      gen 1 = .ok t →
      call_gemini gen fb mockResp model0 = ⟨pyStrip t, false, [INITIAL_RETRY_DELAY], 2, model0⟩) := by
  refine ⟨?_, ?_, ?_, ?_⟩
  · intro m hg hc
    rcases hc with hc | hc <;>
      simp +decide [call_gemini, callGeminiLoop, hg, hc]
  · intro m hg hc
    simp +decide [call_gemini, callGeminiLoop, hg, hc]
  · intro h
    obtain ⟨m0, hg0, hc0⟩ := h 0 (by decide)
    obtain ⟨m1, hg1, hc1⟩ := h 1 (by decide)
    obtain ⟨m2, hg2, hc2⟩ := h 2 (by decide)
    rcases hc0 with hc0 | hc0 <;> rcases hc1 with hc1 | hc1 <;> rcases hc2 with hc2 | hc2 <;>
      simp +decide [call_gemini, callGeminiLoop, hg0, hc0, hg1, hc1, hg2, hc2, MAX_API_RETRIES]
  · intro m t hg0 hc hg1
    rcases hc with hc | hc <;>
      simp +decide [call_gemini, callGeminiLoop, hg0, hc, hg1]

/-- Witness for C9: a permission error degrades to the stub immediately. -/
theorem gateway_escalation_policy_witness :
    call_gemini (fun _ => .error "403 forbidden") (fun _ => none) "stub" "m" =
      ⟨"stub", true, [], 1, "m"⟩ :=
  (gateway_escalation_policy (fun _ => .error "403 forbidden") (fun _ => none) "stub" "m").1
    "403 forbidden" rfl (Or.inl rfl)

/-- C10: a prompt carrying none of the three agent markers makes the stub
return the empty record text, and a stub-resolved call through the JSON-safe
wrapper with a non-empty required-key set therefore fails with the
missing-required-keys error. -/
theorem mock_llm_unrecognized_prompt (prompt : String) (keys : List String)
    (h1 : containsSub prompt "Scanner" = false) (h2 : containsSub prompt "Fixer" = false)
    (h3 : containsSub prompt "Validator" = false) (hk : keys ≠ []) :
    mock_llm prompt = "\x7b\x7d" ∧
      safe_llm_json_call (mock_llm prompt) keys = .error .missingKeys := by
  have hm : mock_llm prompt = "\x7b\x7d" := by simp [mock_llm, h1, h2, h3]
  refine ⟨hm, ?_⟩
  rw [hm]
  have hext : extract_json "\x7b\x7d" = some "\x7b\x7d" := rfl
  have hld : jsonLoads "\x7b\x7d" = some (.obj []) := rfl
  simp only [safe_llm_json_call, hext, hld]
  cases keys with
  | nil => exact absurd rfl hk
  | cons a as => simp [jsonHasKey]

/-- Witness for C10 at a concrete unrecognized prompt. -/
theorem mock_llm_unrecognized_prompt_witness :
    mock_llm "hello there" = "\x7b\x7d" ∧
      safe_llm_json_call (mock_llm "hello there") ["errors"] = .error .missingKeys :=
  mock_llm_unrecognized_prompt "hello there" ["errors"] rfl rfl rfl (by decide)

/-!
## Extractor round-trip (C1)

Transport lemmas: scanning a chunk of known shape moves the balanced scan
from one suffix of the text to another without producing a candidate.
-/

theorem stripFences1_id : ∀ (fuel : Nat) (l : List Char), (∀ c ∈ l, c ≠ '\x60') →
    stripFences1 fuel l = l := by
  intro fuel l
  induction l generalizing fuel with
  | nil => intro _; cases fuel <;> rfl
  | cons c cs ih =>
    intro h
    cases fuel with
    | zero => rfl
    | succ f =>
      have hc : c ≠ '\x60' := h c (List.mem_cons_self c cs)
      simp only [stripFences1, hc, false_and, if_false]
      rw [ih f (fun d hd => h d (List.mem_cons_of_mem c hd))]

theorem stripFences2_id : ∀ (fuel : Nat) (l : List Char), (∀ c ∈ l, c ≠ '\x60') →
    stripFences2 fuel l = l := by
  intro fuel l
  induction l generalizing fuel with
  | nil => intro _; cases fuel <;> rfl
  | cons c cs ih =>
    intro h
    cases fuel with
    | zero => rfl
    | succ f =>
      have hc : c ≠ '\x60' := h c (List.mem_cons_self c cs)
      simp only [stripFences2, hc, false_and, if_false]
      rw [ih f (fun d hd => h d (List.mem_cons_of_mem c hd))]

/-- Characters that are not quote, backslash or brace leave the scan state
untouched (outside a string literal, at any depth). -/
theorem extractLoop_noop (all : List Char) (chunk : List Char)
    (h : ∀ c ∈ chunk, c ≠ '"' ∧ c ≠ '\x7b' ∧ c ≠ '\x7d') :
    ∀ (tail : List Char) (depth : Nat) (start : Option Nat),
      extractLoop all (chunk ++ tail) depth start false false =
        extractLoop all tail depth start false false := by
  induction chunk with
  | nil => intro tail depth start; rfl
  | cons c cs ih =>
    intro tail depth start
    obtain ⟨hq, hob, hcb⟩ := h c (List.mem_cons_self c cs)
    simp only [List.cons_append, extractLoop, if_neg, hq, hob, hcb, and_false, if_false,
      Bool.false_eq_true]
    exact ih (fun d hd => h d (List.mem_cons_of_mem c hd)) tail depth start

/-- At depth 0 with the string flag clear, prose free of quotes and opening
braces is skipped (unbalanced closing braces included). -/
theorem extractLoop_prose (all : List Char) (pre : List Char)
    (h : ∀ c ∈ pre, c ≠ '"' ∧ c ≠ '\x7b') :
    ∀ (tail : List Char) (start : Option Nat),
      extractLoop all (pre ++ tail) 0 start false false =
        extractLoop all tail 0 start false false := by
  induction pre with
  | nil => intro tail start; rfl
  | cons c cs ih =>
    intro tail start
    obtain ⟨hq, hob⟩ := h c (List.mem_cons_self c cs)
    rw [List.cons_append]
    by_cases hcb : c = '\x7d'
    · subst hcb
      show extractLoop all (cs ++ tail) 0 start false false = _
      exact ih (fun d hd => h d (List.mem_cons_of_mem _ hd)) tail start
    · simp only [extractLoop, hq, hob, hcb, and_false, if_false, Bool.false_eq_true]
      exact ih (fun d hd => h d (List.mem_cons_of_mem _ hd)) tail start

theorem isJsonWs_spec (c : Char) (h : isJsonWs c = true) :
    c = ' ' ∨ c = '\t' ∨ c = '\n' ∨ c = '\r' := by
  simp only [isJsonWs, Bool.or_eq_true, decide_eq_true_eq] at h
  tauto

/-- Whitespace between JSON tokens is skipped by the scan. -/
theorem extractLoop_skipWs (all : List Char) (cs : List Char) :
    ∀ (post : List Char) (depth : Nat) (start : Option Nat),
      extractLoop all (cs ++ post) depth start false false =
        extractLoop all (skipWs cs ++ post) depth start false false := by
  induction cs with
  | nil => intro post depth start; rfl
  | cons c r ih =>
    intro post depth start
    by_cases hw : isJsonWs c = true
    · have hspec := isJsonWs_spec c hw
      have hsafe : c ≠ '"' ∧ c ≠ '\x7b' ∧ c ≠ '\x7d' := by
        rcases hspec with h | h | h | h <;> subst h <;> exact ⟨by decide, by decide, by decide⟩
      have hskip : skipWs (c :: r) = skipWs r := by
        simp [skipWs, List.dropWhile_cons, hw]
      rw [hskip, ← ih post depth start]
      exact extractLoop_noop all [c] (by simpa using hsafe) (r ++ post) depth start
    · have hskip : skipWs (c :: r) = c :: r := by
        simp [skipWs, List.dropWhile_cons, hw]
      rw [hskip]

theorem hexVal_safe (c : Char) (n : Nat) (h : hexVal c = some n) : c ≠ '"' ∧ c ≠ '\\' := by
  constructor <;> rintro rfl <;> simp +decide [hexVal] at h

/-- Inside a string literal (escape flag clear) a character other than a
quote or backslash is skipped, braces included. -/
theorem extractLoop_instr_char (all : List Char) (c : Char)
    (hq : c ≠ '"') (hb : c ≠ '\\') (rest : List Char) (depth : Nat) (start : Option Nat) :
    extractLoop all (c :: rest) depth start true false =
      extractLoop all rest depth start true false := by
  simp only [extractLoop, hq, hb, false_and, and_true, if_false, Bool.false_eq_true, if_true]

/-- Inversion for `parseUnicodeEscape`: the consumed characters are four hex
digits, or four hex digits followed by a second complete `\uXXXX` escape. -/
theorem parseUnicodeEscape_shape (cs : List Char) (d : Char) (r2 : List Char)
    (h : parseUnicodeEscape cs = some (d, r2)) :
    (∃ a b c e na nb nc ne, cs = a :: b :: c :: e :: r2 ∧
      hexVal a = some na ∧ hexVal b = some nb ∧ hexVal c = some nc ∧ hexVal e = some ne) ∨
    (∃ a b c e a2 b2 c2 e2 na nb nc ne ma mb mc me,
      cs = a :: b :: c :: e :: '\\' :: 'u' :: a2 :: b2 :: c2 :: e2 :: r2 ∧
      hexVal a = some na ∧ hexVal b = some nb ∧ hexVal c = some nc ∧ hexVal e = some ne ∧
      hexVal a2 = some ma ∧ hexVal b2 = some mb ∧ hexVal c2 = some mc ∧
      hexVal e2 = some me) := by
  rcases cs with _ | ⟨a, _ | ⟨b, _ | ⟨c, _ | ⟨e, r⟩⟩⟩⟩
  · exact Option.noConfusion h
  · exact Option.noConfusion h
  · exact Option.noConfusion h
  · exact Option.noConfusion h
  rcases ha : hexVal a with _ | na
  · simp [parseUnicodeEscape, ha] at h
  rcases hb : hexVal b with _ | nb
  · simp [parseUnicodeEscape, ha, hb] at h
  rcases hc : hexVal c with _ | nc
  · simp [parseUnicodeEscape, ha, hb, hc] at h
  rcases he : hexVal e with _ | ne
  · simp [parseUnicodeEscape, ha, hb, hc, he] at h
  simp only [parseUnicodeEscape, ha, hb, hc, he] at h
  by_cases hrange : 0xd800 ≤ ((na * 16 + nb) * 16 + nc) * 16 + ne ∧
      ((na * 16 + nb) * 16 + nc) * 16 + ne ≤ 0xdbff
  · rw [if_pos hrange] at h
    split at h
    · rename_i a2 b2 c2 e2 rr2
      rcases ha2 : hexVal a2 with _ | ma
      · simp only [ha2] at h
        injection h with h
        injection h with h1 h2
        refine Or.inl ⟨a, b, c, e, na, nb, nc, ne, ?_, ha, hb, hc, he⟩
        rw [h2]
      rcases hb2 : hexVal b2 with _ | mb
      · simp only [ha2, hb2] at h
        injection h with h
        injection h with h1 h2
        refine Or.inl ⟨a, b, c, e, na, nb, nc, ne, ?_, ha, hb, hc, he⟩
        rw [h2]
      rcases hc2 : hexVal c2 with _ | mc
      · simp only [ha2, hb2, hc2] at h
        injection h with h
        injection h with h1 h2
        refine Or.inl ⟨a, b, c, e, na, nb, nc, ne, ?_, ha, hb, hc, he⟩
        rw [h2]
      rcases he2 : hexVal e2 with _ | me
      · simp only [ha2, hb2, hc2, he2] at h
        injection h with h
        injection h with h1 h2
        refine Or.inl ⟨a, b, c, e, na, nb, nc, ne, ?_, ha, hb, hc, he⟩
        rw [h2]
      simp only [ha2, hb2, hc2, he2] at h
      by_cases hrange2 : 0xdc00 ≤ ((ma * 16 + mb) * 16 + mc) * 16 + me ∧
          ((ma * 16 + mb) * 16 + mc) * 16 + me ≤ 0xdfff
      · rw [if_pos hrange2] at h
        injection h with h
        injection h with h1 h2
        refine Or.inr ⟨a, b, c, e, a2, b2, c2, e2, na, nb, nc, ne, ma, mb, mc, me, ?_,
          ha, hb, hc, he, ha2, hb2, hc2, he2⟩
        rw [h2]
      · rw [if_neg hrange2] at h
        injection h with h
        injection h with h1 h2
        refine Or.inl ⟨a, b, c, e, na, nb, nc, ne, ?_, ha, hb, hc, he⟩
        rw [h2]
    · injection h with h
      injection h with h1 h2
      refine Or.inl ⟨a, b, c, e, na, nb, nc, ne, ?_, ha, hb, hc, he⟩
      rw [h2]
  · rw [if_neg hrange] at h
    injection h with h
    injection h with h1 h2
    refine Or.inl ⟨a, b, c, e, na, nb, nc, ne, ?_, ha, hb, hc, he⟩
    rw [h2]

/-- Scanning the characters of one escape sequence, starting right after the
backslash set the escape flag, lands after the sequence with the escape flag
clear and the string flag still set. -/
theorem extractLoop_escape (all : List Char) (cs : List Char) (d : Char) (r2 : List Char)
    (h : parseEscape cs = some (d, r2)) :
    ∀ (post : List Char) (depth : Nat) (start : Option Nat),
      extractLoop all (cs ++ post) depth start true true =
        extractLoop all (r2 ++ post) depth start true false := by
  intro post depth start
  cases cs with
  | nil => exact Option.noConfusion h
  | cons e r =>
    by_cases hu : e = 'u'
    · subst hu
      have hr : parseUnicodeEscape r = some (d, r2) := by
        simpa [parseEscape] using h
      rcases parseUnicodeEscape_shape r d r2 hr with
        ⟨a, b, c, e4, na, nb, nc, ne, hcs, h1, h2, h3, h4⟩ |
        ⟨a, b, c, e4, a2, b2, c2, e2, na, nb, nc, ne, ma, mb, mc, me, hcs,
          h1, h2, h3, h4, h5, h6, h7, h8⟩
      · subst hcs
        show extractLoop all ((a :: b :: c :: e4 :: r2) ++ post) depth start true false = _
        rw [List.cons_append,
          extractLoop_instr_char all a (hexVal_safe a na h1).1 (hexVal_safe a na h1).2,
          List.cons_append,
          extractLoop_instr_char all b (hexVal_safe b nb h2).1 (hexVal_safe b nb h2).2,
          List.cons_append,
          extractLoop_instr_char all c (hexVal_safe c nc h3).1 (hexVal_safe c nc h3).2,
          List.cons_append,
          extractLoop_instr_char all e4 (hexVal_safe e4 ne h4).1 (hexVal_safe e4 ne h4).2]
      · subst hcs
        show extractLoop all
          ((a :: b :: c :: e4 :: '\\' :: 'u' :: a2 :: b2 :: c2 :: e2 :: r2) ++ post)
          depth start true false = _
        rw [List.cons_append,
          extractLoop_instr_char all a (hexVal_safe a na h1).1 (hexVal_safe a na h1).2,
          List.cons_append,
          extractLoop_instr_char all b (hexVal_safe b nb h2).1 (hexVal_safe b nb h2).2,
          List.cons_append,
          extractLoop_instr_char all c (hexVal_safe c nc h3).1 (hexVal_safe c nc h3).2,
          List.cons_append,
          extractLoop_instr_char all e4 (hexVal_safe e4 ne h4).1 (hexVal_safe e4 ne h4).2]
        show extractLoop all ((a2 :: b2 :: c2 :: e2 :: r2) ++ post) depth start true false = _
        rw [List.cons_append,
          extractLoop_instr_char all a2 (hexVal_safe a2 ma h5).1 (hexVal_safe a2 ma h5).2,
          List.cons_append,
          extractLoop_instr_char all b2 (hexVal_safe b2 mb h6).1 (hexVal_safe b2 mb h6).2,
          List.cons_append,
          extractLoop_instr_char all c2 (hexVal_safe c2 mc h7).1 (hexVal_safe c2 mc h7).2,
          List.cons_append,
          extractLoop_instr_char all e2 (hexVal_safe e2 me h8).1 (hexVal_safe e2 me h8).2]
    · have hr2 : r2 = r := by
        have hesc : (escChar e).map (fun d0 => (d0, r)) = some (d, r2) := by
          simpa [parseEscape, hu] using h
        cases hec : escChar e with
        | none => rw [hec] at hesc; cases hesc
        | some d0 =>
          rw [hec] at hesc
          injection hesc with hesc
          exact (congrArg Prod.snd hesc).symm
      subst hr2
      show extractLoop all (r2 ++ post) depth start true false = _
      rfl

/-- Scanning a complete string-literal body (opening quote already consumed,
string flag set) lands just after the closing quote with the string flag
clear: braces and escaped quotes inside the literal are ignored. -/
theorem extractLoop_string (all : List Char) :
    ∀ (fuel : Nat) (cs content rest : List Char),
      parseStringChars fuel cs = some (content, rest) →
      ∀ (post : List Char) (depth : Nat) (start : Option Nat),
        extractLoop all (cs ++ post) depth start true false =
          extractLoop all (rest ++ post) depth start false false := by
  intro fuel
  induction fuel with
  | zero => intro cs content rest hp; exact Option.noConfusion hp
  | succ f ih =>
    intro cs content rest hp post depth start
    cases cs with
    | nil => exact Option.noConfusion hp
    | cons c r =>
      by_cases hq : c = '"'
      · subst hq
        have h1 : rest = r := by
          simp [parseStringChars] at hp
          exact hp.2.symm
        subst h1
        rfl
      · by_cases hb : c = '\\'
        · subst hb
          rcases hpe : parseEscape r with _ | ⟨d2, r3⟩
          · simp +decide [parseStringChars, hpe] at hp
          · rcases hps : parseStringChars f r3 with _ | ⟨content3, rest3⟩
            · simp +decide [parseStringChars, hpe, hps] at hp
            · simp +decide [parseStringChars, hpe, hps] at hp
              rw [List.cons_append]
              show extractLoop all (r ++ post) depth start true true = _
              rw [extractLoop_escape all r d2 r3 hpe post depth start]
              rw [ih r3 content3 rest3 hps post depth start, hp.2]
        · by_cases hctl : c.toNat < 32
          · simp [parseStringChars, hq, hb, hctl] at hp
          · rcases hps : parseStringChars f r with _ | ⟨content3, rest3⟩
            · simp [parseStringChars, hq, hb, hctl, hps] at hp
            · simp [parseStringChars, hq, hb, hctl, hps] at hp
              rw [List.cons_append, extractLoop_instr_char all c hq hb]
              rw [ih r content3 rest3 hps post depth start, hp.2]

theorem digit_safe (c : Char) (h : c.isDigit = true) :
    c ≠ '"' ∧ c ≠ '\x7b' ∧ c ≠ '\x7d' := by
  refine ⟨?_, ?_, ?_⟩ <;> rintro rfl <;> simp +decide [Char.isDigit] at h

theorem digits_chunk_safe (l : List Char) :
    ∀ c ∈ l.takeWhile Char.isDigit, c ≠ '"' ∧ c ≠ '\x7b' ∧ c ≠ '\x7d' :=
  fun c hc => digit_safe c (List.mem_takeWhile_imp hc)

theorem parseNumFrac_decomp (lexInt r lex rest : List Char)
    (h : parseNumFrac lexInt r = (lex, rest)) :
    ∃ chunk, r = chunk ++ rest ∧ ∀ c ∈ chunk, c ≠ '"' ∧ c ≠ '\x7b' ∧ c ≠ '\x7d' := by
  unfold parseNumFrac at h
  split at h
  · rename_i r2
    simp only at h
    split at h
    · injection h with h1 h2
      exact ⟨[], by rw [← h2, List.nil_append], by simp⟩
    · injection h with h1 h2
      refine ⟨'.' :: r2.takeWhile Char.isDigit, ?_, ?_⟩
      · rw [List.cons_append, ← h2, List.takeWhile_append_dropWhile]
      · intro c hc
        rcases List.mem_cons.mp hc with hc | hc
        · subst hc; exact ⟨by decide, by decide, by decide⟩
        · exact digits_chunk_safe r2 c hc
  · injection h with h1 h2
    exact ⟨[], by rw [← h2, List.nil_append], by simp⟩

theorem parseNumExp_decomp (lexFrac r1 lex rest : List Char)
    (h : parseNumExp lexFrac r1 = (lex, rest)) :
    ∃ chunk, r1 = chunk ++ rest ∧ ∀ c ∈ chunk, c ≠ '"' ∧ c ≠ '\x7b' ∧ c ≠ '\x7d' := by
  unfold parseNumExp at h
  split at h
  · rename_i e r2
    split at h
    · rename_i he
      have hesafe : e ≠ '"' ∧ e ≠ '\x7b' ∧ e ≠ '\x7d' := by
        rcases he with he | he <;> subst he <;> exact ⟨by decide, by decide, by decide⟩
      split at h
      · rename_i s r3
        split at h
        · rename_i hs
          have hssafe : s ≠ '"' ∧ s ≠ '\x7b' ∧ s ≠ '\x7d' := by
            rcases hs with hs | hs <;> subst hs <;> exact ⟨by decide, by decide, by decide⟩
          simp only at h
          split at h
          · injection h with h1 h2
            exact ⟨[], by rw [← h2, List.nil_append], by simp⟩
          · injection h with h1 h2
            refine ⟨e :: s :: r3.takeWhile Char.isDigit, ?_, ?_⟩
            · rw [List.cons_append, List.cons_append, ← h2, List.takeWhile_append_dropWhile]
            · intro c hc
              rcases List.mem_cons.mp hc with hc | hc
              · subst hc; exact hesafe
              rcases List.mem_cons.mp hc with hc | hc
              · subst hc; exact hssafe
              · exact digits_chunk_safe r3 c hc
        · rename_i hs
          simp only at h
          split at h
          · injection h with h1 h2
            exact ⟨[], by rw [← h2, List.nil_append], by simp⟩
          · injection h with h1 h2
            refine ⟨e :: (s :: r3).takeWhile Char.isDigit, ?_, ?_⟩
            · rw [List.cons_append, ← h2, List.takeWhile_append_dropWhile]
            · intro c hc
              rcases List.mem_cons.mp hc with hc | hc
              · subst hc; exact hesafe
              · exact digits_chunk_safe (s :: r3) c hc
      · injection h with h1 h2
        exact ⟨[], by rw [← h2, List.nil_append], by simp⟩
    · injection h with h1 h2
      exact ⟨[], by rw [← h2, List.nil_append], by simp⟩
  · injection h with h1 h2
    exact ⟨[], by rw [← h2, List.nil_append], by simp⟩

/-- The characters a number parse consumes are all scan-inert. -/
theorem parseNumAfterInt_decomp (lexInt r : List Char) (lex rest : List Char)
    (h : parseNumAfterInt lexInt r = (lex, rest)) :
    ∃ chunk, r = chunk ++ rest ∧ ∀ c ∈ chunk, c ≠ '"' ∧ c ≠ '\x7b' ∧ c ≠ '\x7d' := by
  unfold parseNumAfterInt at h
  rcases hf : parseNumFrac lexInt r with ⟨lexF, r1⟩
  rw [hf] at h
  obtain ⟨chunk1, hr, hsafe1⟩ := parseNumFrac_decomp lexInt r lexF r1 hf
  obtain ⟨chunk2, hr1, hsafe2⟩ := parseNumExp_decomp lexF r1 lex rest h
  refine ⟨chunk1 ++ chunk2, ?_, ?_⟩
  · rw [hr, hr1, List.append_assoc]
  · intro c hc
    rcases List.mem_append.mp hc with hc | hc
    · exact hsafe1 c hc
    · exact hsafe2 c hc

theorem parseNumberBody_decomp (sign r1 : List Char) (lex rest : List Char)
    (h : parseNumberBody sign r1 = some (lex, rest)) :
    ∃ chunk, r1 = chunk ++ rest ∧ ∀ c ∈ chunk, c ≠ '"' ∧ c ≠ '\x7b' ∧ c ≠ '\x7d' := by
  unfold parseNumberBody at h
  split at h
  · rename_i r2
    injection h with h
    obtain ⟨chunk, hr2, hsafe⟩ := parseNumAfterInt_decomp (sign ++ ['0']) r2 lex rest h
    refine ⟨'0' :: chunk, by rw [hr2, List.cons_append], ?_⟩
    intro c hc
    rcases List.mem_cons.mp hc with hc | hc
    · subst hc; exact ⟨by decide, by decide, by decide⟩
    · exact hsafe c hc
  · rename_i c0 r2 hne
    split at h
    · rename_i hdig
      injection h with h
      obtain ⟨chunk, hr2, hsafe⟩ :=
        parseNumAfterInt_decomp (sign ++ c0 :: r2.takeWhile Char.isDigit)
          (r2.dropWhile Char.isDigit) lex rest h
      refine ⟨c0 :: (r2.takeWhile Char.isDigit ++ chunk), ?_, ?_⟩
      · rw [List.cons_append, List.append_assoc, ← hr2, List.takeWhile_append_dropWhile]
      · intro c hc
        rcases List.mem_cons.mp hc with hc | hc
        · rw [hc]; exact digit_safe c0 hdig
        rcases List.mem_append.mp hc with hc | hc
        · exact digits_chunk_safe r2 c hc
        · exact hsafe c hc
    · exact Option.noConfusion h
  · exact Option.noConfusion h

theorem parseNumber_decomp (cs : List Char) (lex rest : List Char)
    (h : parseNumber cs = some (lex, rest)) :
    ∃ chunk, cs = chunk ++ rest ∧ ∀ c ∈ chunk, c ≠ '"' ∧ c ≠ '\x7b' ∧ c ≠ '\x7d' := by
  unfold parseNumber at h
  split at h
  · rename_i r
    obtain ⟨chunk, hr, hsafe⟩ := parseNumberBody_decomp ['-'] r lex rest h
    refine ⟨'-' :: chunk, by rw [List.cons_append, ← hr], ?_⟩
    intro c hc
    rcases List.mem_cons.mp hc with hc | hc
    · subst hc; exact ⟨by decide, by decide, by decide⟩
    · exact hsafe c hc
  · exact parseNumberBody_decomp [] cs lex rest h

/-- Single inert character, stated in cons form for rewriting. -/
theorem extractLoop_noop_one (all : List Char) (c : Char)
    (h : c ≠ '"' ∧ c ≠ '\x7b' ∧ c ≠ '\x7d') (tail : List Char) (depth : Nat)
    (start : Option Nat) :
    extractLoop all (c :: tail) depth start false false =
      extractLoop all tail depth start false false :=
  extractLoop_noop all [c] (by simpa using h) tail depth start

/-- An opening brace at nonzero depth pushes without moving `start`. -/
theorem extractLoop_open_brace_deep (all rest : List Char) (depth : Nat) (start : Option Nat)
    (hd : ¬depth = 0) :
    extractLoop all ('\x7b' :: rest) depth start false false =
      extractLoop all rest (depth + 1) start false false := by
  simp +decide only [extractLoop, if_true, if_false]
  rw [if_neg hd]

/-- A closing brace at depth at least 2 pops without producing a candidate. -/
theorem extractLoop_close_brace_deep (all rest : List Char) (depth : Nat) (start : Option Nat)
    (hd : 2 ≤ depth) :
    extractLoop all ('\x7d' :: rest) depth start false false =
      extractLoop all rest (depth - 1) start false false := by
  simp +decide only [extractLoop, if_true, if_false]
  rw [if_neg (by omega : ¬depth = 0), if_neg (by omega : ¬depth = 1)]

/-- An opening quote (outside a string) sets the string flag. -/
theorem extractLoop_open_quote (all rest : List Char) (depth : Nat) (start : Option Nat) :
    extractLoop all ('"' :: rest) depth start false false =
      extractLoop all rest depth start true false := rfl

/-- The heart of the round-trip: scanning the exact characters consumed by a
JSON value parse, at depth at least 1, moves the scan across them with the
state unchanged and produces no candidate; likewise for object bodies (whose
closing brace is left for the caller), member lists (entered just inside the
key's opening quote) and array bodies. -/
theorem extractLoop_value_transport (all : List Char) : ∀ (fuel : Nat),
    (∀ cs v rest, parseValue fuel cs = some (v, rest) →
      ∀ post depth start, 1 ≤ depth →
        extractLoop all (cs ++ post) depth start false false =
          extractLoop all (rest ++ post) depth start false false)
  ∧ (∀ cs kvs rest, parseObjBody fuel cs = some (kvs, rest) →
      (∃ r2, rest = '\x7d' :: r2) ∧
      ∀ post depth start, 1 ≤ depth →
        extractLoop all (cs ++ post) depth start false false =
          extractLoop all (rest ++ post) depth start false false)
  ∧ (∀ cs acc kvs rest, parseMembers fuel cs acc = some (kvs, rest) →
      (∃ r2, rest = '\x7d' :: r2) ∧
      ∀ post depth start, 1 ≤ depth →
        extractLoop all (cs ++ post) depth start true false =
          extractLoop all (rest ++ post) depth start false false)
  ∧ (∀ cs vs rest, parseArrBody fuel cs = some (vs, rest) →
      ∀ post depth start, 1 ≤ depth →
        extractLoop all (cs ++ post) depth start false false =
          extractLoop all (rest ++ post) depth start false false)
  ∧ (∀ cs acc vs rest, parseElems fuel cs acc = some (vs, rest) →
      ∀ post depth start, 1 ≤ depth →
        extractLoop all (cs ++ post) depth start false false =
          extractLoop all (rest ++ post) depth start false false) := by
  intro fuel
  induction fuel with
  | zero =>
    refine ⟨?_, ?_, ?_, ?_, ?_⟩
    · intro cs v rest hp; exact Option.noConfusion hp
    · intro cs kvs rest hp; exact Option.noConfusion hp
    · intro cs acc kvs rest hp; exact Option.noConfusion hp
    · intro cs vs rest hp; exact Option.noConfusion hp
    · intro cs acc vs rest hp; exact Option.noConfusion hp
  | succ f ih =>
    obtain ⟨ihV, ihO, ihM, ihA, ihE⟩ := ih
    have stepV : ∀ cs v rest, parseValue (f + 1) cs = some (v, rest) →
        ∀ post depth start, 1 ≤ depth →
          extractLoop all (cs ++ post) depth start false false =
            extractLoop all (rest ++ post) depth start false false := by
      intro cs v rest hp post depth start hdep
      cases cs with
      | nil => exact Option.noConfusion hp
      | cons c rr =>
      simp only [parseValue] at hp
      by_cases hc1 : c = '\x7b'
      · subst hc1
        rw [if_pos rfl] at hp
        rcases hob : parseObjBody f rr with _ | ⟨kvs, rr1⟩
        · rw [hob] at hp; exact Option.noConfusion hp
        rw [hob] at hp
        obtain ⟨⟨r2cl, hrcl⟩, htr⟩ := ihO rr kvs rr1 hob
        subst hrcl
        simp only at hp
        injection hp with hp
        injection hp with hp1 hp2
        rw [List.cons_append,
          extractLoop_open_brace_deep all (rr ++ post) depth start (by omega),
          htr post (depth + 1) start (by omega), List.cons_append,
          extractLoop_close_brace_deep all (r2cl ++ post) (depth + 1) start (by omega),
          Nat.add_sub_cancel, hp2]
      rw [if_neg hc1] at hp
      by_cases hc2 : c = '['
      · subst hc2
        rw [if_pos rfl] at hp
        rcases har : parseArrBody f rr with _ | ⟨vs, r⟩
        · rw [har] at hp; exact Option.noConfusion hp
        rw [har] at hp
        injection hp with hp
        injection hp with hp1 hp2
        rw [List.cons_append,
          show extractLoop all ('[' :: (rr ++ post)) depth start false false =
            extractLoop all (rr ++ post) depth start false false from
            extractLoop_noop all ['['] (by decide) (rr ++ post) depth start,
          ihA rr vs r har post depth start hdep, hp2]
      rw [if_neg hc2] at hp
      by_cases hc3 : c = '"'
      · subst hc3
        rw [if_pos rfl] at hp
        rcases hps : parseStringChars (rr.length + 1) rr with _ | ⟨content, rest1⟩
        · rw [hps] at hp; exact Option.noConfusion hp
        rw [hps] at hp
        simp only [Option.map_some'] at hp
        injection hp with hp
        injection hp with hp1 hp2
        rw [List.cons_append, extractLoop_open_quote,
          extractLoop_string all (rr.length + 1) rr content rest1 hps post depth start, hp2]
      rw [if_neg hc3] at hp
      by_cases hc4 : c = 't'
      · subst hc4
        rw [if_pos rfl] at hp
        split at hp
        · rename_i htake
          injection hp with hp
          injection hp with hp1 hp2
          rw [show ('t' : Char) :: rr = ('t' :: rr.take 3) ++ rr.drop 3 from by
              rw [List.cons_append, List.take_append_drop],
            List.append_assoc,
            extractLoop_noop all ('t' :: rr.take 3) (by rw [htake]; decide)
              (rr.drop 3 ++ post) depth start, hp2]
        · exact Option.noConfusion hp
      rw [if_neg hc4] at hp
      by_cases hc5 : c = 'f'
      · subst hc5
        rw [if_pos rfl] at hp
        split at hp
        · rename_i htake
          injection hp with hp
          injection hp with hp1 hp2
          rw [show ('f' : Char) :: rr = ('f' :: rr.take 4) ++ rr.drop 4 from by
              rw [List.cons_append, List.take_append_drop],
            List.append_assoc,
            extractLoop_noop all ('f' :: rr.take 4) (by rw [htake]; decide)
              (rr.drop 4 ++ post) depth start, hp2]
        · exact Option.noConfusion hp
      rw [if_neg hc5] at hp
      by_cases hc6 : c = 'n'
      · subst hc6
        rw [if_pos rfl] at hp
        split at hp
        · rename_i htake
          injection hp with hp
          injection hp with hp1 hp2
          rw [show ('n' : Char) :: rr = ('n' :: rr.take 3) ++ rr.drop 3 from by
              rw [List.cons_append, List.take_append_drop],
            List.append_assoc,
            extractLoop_noop all ('n' :: rr.take 3) (by rw [htake]; decide)
              (rr.drop 3 ++ post) depth start, hp2]
        · exact Option.noConfusion hp
      rw [if_neg hc6] at hp
      by_cases hc7 : c = 'N'
      · subst hc7
        rw [if_pos rfl] at hp
        split at hp
        · rename_i htake
          injection hp with hp
          injection hp with hp1 hp2
          rw [show ('N' : Char) :: rr = ('N' :: rr.take 2) ++ rr.drop 2 from by
              rw [List.cons_append, List.take_append_drop],
            List.append_assoc,
            extractLoop_noop all ('N' :: rr.take 2) (by rw [htake]; decide)
              (rr.drop 2 ++ post) depth start, hp2]
        · exact Option.noConfusion hp
      rw [if_neg hc7] at hp
      by_cases hc8 : c = 'I'
      · subst hc8
        rw [if_pos rfl] at hp
        split at hp
        · rename_i htake
          injection hp with hp
          injection hp with hp1 hp2
          rw [show ('I' : Char) :: rr = ('I' :: rr.take 7) ++ rr.drop 7 from by
              rw [List.cons_append, List.take_append_drop],
            List.append_assoc,
            extractLoop_noop all ('I' :: rr.take 7) (by rw [htake]; decide)
              (rr.drop 7 ++ post) depth start, hp2]
        · exact Option.noConfusion hp
      rw [if_neg hc8] at hp
      by_cases hc9 : c = '-' ∧ rr.take 8 = ['I', 'n', 'f', 'i', 'n', 'i', 't', 'y']
      · obtain ⟨hc, htake⟩ := hc9
        subst hc
        rw [if_pos ⟨rfl, htake⟩] at hp
        injection hp with hp
        injection hp with hp1 hp2
        rw [show ('-' : Char) :: rr = ('-' :: rr.take 8) ++ rr.drop 8 from by
            rw [List.cons_append, List.take_append_drop],
          List.append_assoc,
          extractLoop_noop all ('-' :: rr.take 8) (by rw [htake]; decide)
            (rr.drop 8 ++ post) depth start, hp2]
      rw [if_neg hc9] at hp
      rcases hn : parseNumber (c :: rr) with _ | ⟨lex, rest1⟩
      · rw [hn] at hp; exact Option.noConfusion hp
      rw [hn] at hp
      simp only [Option.map_some'] at hp
      injection hp with hp
      injection hp with hp1 hp2
      obtain ⟨chunk, hcs, hsafe⟩ := parseNumber_decomp (c :: rr) lex rest1 hn
      rw [hcs, List.append_assoc,
        extractLoop_noop all chunk hsafe (rest1 ++ post) depth start, hp2]
    refine ⟨stepV, ?_, ?_, ?_, ?_⟩
    · intro cs kvs rest hp
      unfold parseObjBody at hp
      split at hp
      · rename_i r hsw
        injection hp with hp
        injection hp with hp1 hp2
        refine ⟨⟨r, hp2.symm⟩, ?_⟩
        intro post depth start hdep
        rw [extractLoop_skipWs all cs post depth start, hsw, ← hp2]
      · rename_i r hsw
        obtain ⟨hex, htr⟩ := ihM r [] kvs rest hp
        refine ⟨hex, ?_⟩
        intro post depth start hdep
        rw [extractLoop_skipWs all cs post depth start, hsw, List.cons_append,
          extractLoop_open_quote, htr post depth start hdep]
      · exact Option.noConfusion hp
    · intro cs acc kvs rest hp
      unfold parseMembers at hp
      rcases hks : parseStringChars (cs.length + 1) cs with _ | ⟨key, r1⟩
      · rw [hks] at hp; exact Option.noConfusion hp
      rw [hks] at hp
      simp only at hp
      split at hp
      · rename_i r2 hsw1
        rcases hv : parseValue f (skipWs r2) with _ | ⟨v, r3⟩
        · rw [hv] at hp; exact Option.noConfusion hp
        rw [hv] at hp
        simp only at hp
        split at hp
        · rename_i r4 hsw3
          split at hp
          · rename_i r5 hsw4
            obtain ⟨hex, htr⟩ := ihM r5 (acc ++ [(String.mk key, v)]) kvs rest hp
            refine ⟨hex, ?_⟩
            intro post depth start hdep
            rw [extractLoop_string all (cs.length + 1) cs key r1 hks post depth start,
              extractLoop_skipWs all r1 post depth start, hsw1, List.cons_append,
              extractLoop_noop_one all ':' (by decide) (r2 ++ post) depth start,
              extractLoop_skipWs all r2 post depth start,
              ihV (skipWs r2) v r3 hv post depth start hdep,
              extractLoop_skipWs all r3 post depth start, hsw3, List.cons_append,
              extractLoop_noop_one all ',' (by decide) (r4 ++ post) depth start,
              extractLoop_skipWs all r4 post depth start, hsw4, List.cons_append,
              extractLoop_open_quote, htr post depth start hdep]
          · exact Option.noConfusion hp
        · rename_i r4 hsw3
          injection hp with hp
          injection hp with hp1 hp2
          refine ⟨⟨r4, hp2.symm⟩, ?_⟩
          intro post depth start hdep
          rw [extractLoop_string all (cs.length + 1) cs key r1 hks post depth start,
            extractLoop_skipWs all r1 post depth start, hsw1, List.cons_append,
            extractLoop_noop_one all ':' (by decide) (r2 ++ post) depth start,
            extractLoop_skipWs all r2 post depth start,
            ihV (skipWs r2) v r3 hv post depth start hdep,
            extractLoop_skipWs all r3 post depth start, hsw3, ← hp2]
        · exact Option.noConfusion hp
      · exact Option.noConfusion hp
    · intro cs vs rest hp
      unfold parseArrBody at hp
      split at hp
      · rename_i r hsw
        injection hp with hp
        injection hp with hp1 hp2
        intro post depth start hdep
        rw [extractLoop_skipWs all cs post depth start, hsw, List.cons_append,
          extractLoop_noop_one all ']' (by decide) (r ++ post) depth start, hp2]
      · rename_i hsw
        intro post depth start hdep
        rw [extractLoop_skipWs all cs post depth start]
        exact ihE (skipWs cs) [] vs rest hp post depth start hdep
    · intro cs acc vs rest hp
      unfold parseElems at hp
      rcases hv : parseValue f cs with _ | ⟨v, r1⟩
      · rw [hv] at hp; exact Option.noConfusion hp
      rw [hv] at hp
      simp only at hp
      split at hp
      · rename_i r2 hsw1
        intro post depth start hdep
        rw [ihV cs v r1 hv post depth start hdep,
          extractLoop_skipWs all r1 post depth start, hsw1, List.cons_append,
          extractLoop_noop_one all ',' (by decide) (r2 ++ post) depth start,
          extractLoop_skipWs all r2 post depth start]
        exact ihE (skipWs r2) (acc ++ [v]) vs rest hp post depth start hdep
      · rename_i r2 hsw1
        injection hp with hp
        injection hp with hp1 hp2
        intro post depth start hdep
        rw [ihV cs v r1 hv post depth start hdep,
          extractLoop_skipWs all r1 post depth start, hsw1, List.cons_append,
          extractLoop_noop_one all ']' (by decide) (r2 ++ post) depth start, hp2]
      · exact Option.noConfusion hp

/-- A value parse producing an object consumed an opening brace, a complete
object body, and the matching closing brace. -/
theorem parseValue_obj_inv (fuel : Nat) (cs : List Char) (kvs : List (String × Json))
    (rest : List Char) (h : parseValue fuel cs = some (.obj kvs, rest)) :
    ∃ f body, fuel = f + 1 ∧ cs = '\x7b' :: body ∧
      parseObjBody f body = some (kvs, '\x7d' :: rest) := by
  cases fuel with
  | zero => exact Option.noConfusion h
  | succ f =>
  cases cs with
  | nil => exact Option.noConfusion h
  | cons c rr =>
  simp only [parseValue] at h
  by_cases hc1 : c = '\x7b'
  · subst hc1
    rw [if_pos rfl] at h
    rcases hob : parseObjBody f rr with _ | ⟨kvs1, rr1⟩
    · rw [hob] at h; exact Option.noConfusion h
    rw [hob] at h
    split at h
    · rename_i x0 kvs2 rr2 heq
      injection heq with heq
      injection heq with heqa heqb
      subst heqa
      subst heqb
      split at h
      · rename_i r2
        injection h with h
        injection h with h1 h2
        injection h1 with h1
        refine ⟨f, rr, rfl, rfl, ?_⟩
        rw [hob, h1, h2]
      · exact Option.noConfusion h
    · rename_i heq
      exact Option.noConfusion heq
  · exfalso
    rw [if_neg hc1] at h
    by_cases hc2 : c = '['
    · subst hc2
      rw [if_pos rfl] at h
      rcases har : parseArrBody f rr with _ | ⟨vs, r⟩
      · rw [har] at h; exact Option.noConfusion h
      rw [har] at h
      injection h with h
      injection h with h1 h2
      exact Json.noConfusion h1
    rw [if_neg hc2] at h
    by_cases hc3 : c = '"'
    · subst hc3
      rw [if_pos rfl] at h
      rcases hps : parseStringChars (rr.length + 1) rr with _ | ⟨content, rest1⟩
      · rw [hps] at h; exact Option.noConfusion h
      rw [hps] at h
      simp only [Option.map_some'] at h
      injection h with h
      injection h with h1 h2
      exact Json.noConfusion h1
    rw [if_neg hc3] at h
    by_cases hc4 : c = 't'
    · subst hc4
      rw [if_pos rfl] at h
      split at h
      · injection h with h
        injection h with h1 h2
        exact Json.noConfusion h1
      · exact Option.noConfusion h
    rw [if_neg hc4] at h
    by_cases hc5 : c = 'f'
    · subst hc5
      rw [if_pos rfl] at h
      split at h
      · injection h with h
        injection h with h1 h2
        exact Json.noConfusion h1
      · exact Option.noConfusion h
    rw [if_neg hc5] at h
    by_cases hc6 : c = 'n'
    · subst hc6
      rw [if_pos rfl] at h
      split at h
      · injection h with h
        injection h with h1 h2
        exact Json.noConfusion h1
      · exact Option.noConfusion h
    rw [if_neg hc6] at h
    by_cases hc7 : c = 'N'
    · subst hc7
      rw [if_pos rfl] at h
      split at h
      · injection h with h
        injection h with h1 h2
        exact Json.noConfusion h1
      · exact Option.noConfusion h
    rw [if_neg hc7] at h
    by_cases hc8 : c = 'I'
    · subst hc8
      rw [if_pos rfl] at h
      split at h
      · injection h with h
        injection h with h1 h2
        exact Json.noConfusion h1
      · exact Option.noConfusion h
    rw [if_neg hc8] at h
    by_cases hc9 : c = '-' ∧ rr.take 8 = ['I', 'n', 'f', 'i', 'n', 'i', 't', 'y']
    · rw [if_pos hc9] at h
      injection h with h
      injection h with h1 h2
      exact Json.noConfusion h1
    rw [if_neg hc9] at h
    rcases hn : parseNumber (c :: rr) with _ | ⟨lex, rest1⟩
    · rw [hn] at h; exact Option.noConfusion h
    rw [hn] at h
    simp only [Option.map_some'] at h
    injection h with h
    injection h with h1 h2
    exact Json.noConfusion h1

/-- An opening brace at depth 0 pushes and records the current index as the
candidate start. -/
theorem extractLoop_open_brace_zero (all rest : List Char) (start : Option Nat) :
    extractLoop all ('\x7b' :: rest) 0 start false false =
      extractLoop all rest 1 (some (all.length - ('\x7b' :: rest).length)) false false := by
  simp +decide only [extractLoop, if_true, if_false]

/-- C1 (amended): the extractor round-trip.  For every text formed by a
structurally valid JSON record (no surrounding whitespace of its own) with
arbitrary trailing prose and with leading prose free of double quotes,
opening braces and backtick fences — unbalanced closing braces allowed —
`extract_json` returns exactly that record: braces and escaped quotes inside
its string literals are ignored by the depth counter and the record is
returned as soon as its closing brace is reached. -/
theorem extract_json_roundtrip (pre rec post : List Char) (kvs : List (String × Json))
    (hpre : ∀ c ∈ pre, c ≠ '"' ∧ c ≠ '\x7b' ∧ c ≠ '\x60')
    (hrec : parseValue (rec.length + 1) rec = some (.obj kvs, []))
    (hbt : ∀ c ∈ rec ++ post, c ≠ '\x60') :
    extract_json (String.mk (pre ++ rec ++ post)) = some (String.mk rec) := by
  obtain ⟨f, body, hfuel, hsh, hob⟩ := parseValue_obj_inv (rec.length + 1) rec kvs [] hrec
  subst hsh
  have hf : f = ('\x7b' :: body).length := by omega
  subst hf
  rw [List.append_assoc]
  have hnbt : ∀ c ∈ pre ++ (('\x7b' :: body) ++ post), c ≠ '\x60' := by
    intro c hc
    rcases List.mem_append.mp hc with hc | hc
    · exact (hpre c hc).2.2
    · exact hbt c hc
  have hid : extract_json (String.mk (pre ++ (('\x7b' :: body) ++ post))) =
      (extractLoop (pre ++ (('\x7b' :: body) ++ post)) (pre ++ (('\x7b' :: body) ++ post))
        0 none false false).map String.mk := by
    simp only [extract_json]
    rw [stripFences1_id _ _ hnbt, stripFences2_id _ _ hnbt]
  rw [hid]
  rw [extractLoop_prose (pre ++ (('\x7b' :: body) ++ post)) pre
    (fun c hc => ⟨(hpre c hc).1, (hpre c hc).2.1⟩) (('\x7b' :: body) ++ post) none]
  rw [show extractLoop (pre ++ (('\x7b' :: body) ++ post)) (('\x7b' :: body) ++ post)
      0 none false false =
    extractLoop (pre ++ (('\x7b' :: body) ++ post)) (body ++ post) 1
      (some ((pre ++ (('\x7b' :: body) ++ post)).length - ('\x7b' :: (body ++ post)).length))
      false false from
    extractLoop_open_brace_zero (pre ++ (('\x7b' :: body) ++ post)) (body ++ post) none]
  have hidx : (pre ++ (('\x7b' :: body) ++ post)).length - ('\x7b' :: (body ++ post)).length =
      pre.length := by
    simp only [List.length_append, List.length_cons]
    omega
  rw [hidx]
  obtain ⟨hex, htrO⟩ :=
    ((extractLoop_value_transport (pre ++ (('\x7b' :: body) ++ post))
      (('\x7b' :: body).length)).2.1) body kvs ('\x7d' :: []) hob
  rw [htrO post 1 (some pre.length) (by omega)]
  rw [show extractLoop (pre ++ (('\x7b' :: body) ++ post)) (('\x7d' :: []) ++ post) 1
      (some pre.length) false false =
    extractLoop (pre ++ (('\x7b' :: body) ++ post)) ('\x7d' :: post) 1
      (some pre.length) false false from rfl]
  have hcand : ((pre ++ (('\x7b' :: body) ++ post)).take
      ((pre ++ (('\x7b' :: body) ++ post)).length - ('\x7d' :: post).length + 1)).drop
        pre.length = '\x7b' :: body := by
    have hamt : (pre ++ (('\x7b' :: body) ++ post)).length - ('\x7d' :: post).length + 1 =
        pre.length + ('\x7b' :: body).length := by
      simp only [List.length_append, List.length_cons]
      omega
    rw [hamt, List.take_append, List.take_left, List.drop_left]
  have hsw2 : skipWs ('\x7b' :: body) = '\x7b' :: body := by
    simp +decide [skipWs]
  have hld : jsonLoads (String.mk ('\x7b' :: body)) = some (.obj kvs) := by
    simp only [jsonLoads]
    rw [hsw2, hrec]
    simp [skipWs]
  have hfinal : extractLoop (pre ++ (('\x7b' :: body) ++ post)) ('\x7d' :: post) 1
      (some pre.length) false false = some ('\x7b' :: body) := by
    simp +decide only [extractLoop, if_true, if_false]
    rw [hcand, hld]
    simp
  rw [hfinal]
  simp

/-- Witness for C1: prose with an unbalanced closing brace before a record
whose string value contains escaped quotes and raw braces, followed by
arbitrary prose with a stray opening brace. -/
theorem extract_json_roundtrip_witness :
    extract_json (String.mk ("note \x7d here: ".data ++
        "\x7b\"msg\": \"a \\\"q\\\" and \x7b brace\x7d\"\x7d".data ++
        " trailing \x7b stuff".data)) =
      some (String.mk "\x7b\"msg\": \"a \\\"q\\\" and \x7b brace\x7d\"\x7d".data) :=
  extract_json_roundtrip "note \x7d here: ".data
    "\x7b\"msg\": \"a \\\"q\\\" and \x7b brace\x7d\"\x7d".data
    " trailing \x7b stuff".data
    [("msg", .str "a \"q\" and \x7b brace\x7d")]
    (by decide) rfl (by decide)

/-- Counterexample for C1 as stated: prose containing a stray (unbalanced)
opening brace before a structurally valid embedded record prevents
extraction entirely — the depth counter never returns to zero, so
`extract_json` raises instead of returning the record. -/
theorem extract_json_roundtrip_counterexample :
    extract_json "see \x7b this \x7b\"a\": 1\x7d end" = none ∧
      (jsonLoads "\x7b\"a\": 1\x7d").isSome = true :=
  ⟨rfl, rfl⟩

end AgenticDebugger
